import Mathlib

/-!
Verification development for a Python codec library for a game engine's
binary archive formats: `pak.py` (the PAK container) and `strg.py` (the
STRG string-table resource).  Byte strings are modelled as `List Nat`
(each entry a byte value), Python integers as `Int`, Python `str` values
as lists of character codes (for STRG strings: UTF-16 code units).
Fallible operations (parsing, indexing, dictionary lookup) return
`Option`/`Except`.
-/

/-- Big-endian base-256 value of a byte list (as consumed by `struct.unpack`). -/
def beNat (bs : List Nat) : Nat := bs.foldl (fun acc b => acc * 256 + b) 0

/-- Big-endian 2-byte encoding of an integer, as `struct.pack` with format `>H`
emits it.  `struct.pack` raises for values outside `[0, 2^16)`; the encoding is
modelled total by reducing mod `2^16`, and the well-formedness predicates below
keep every packed field inside the checked range, where the two agree. -/
def u16Bytes (n : Int) : List Nat :=
  let m := (n.emod 65536).toNat
  [m / 256 % 256, m % 256]

/-- Big-endian 4-byte encoding of an integer (`struct.pack` format `>I`),
modelled total by reducing mod `2^32` (see `u16Bytes` for the convention). -/
def u32Bytes (n : Int) : List Nat :=
  let m := (n.emod 4294967296).toNat
  [m / 16777216 % 256, m / 65536 % 256, m / 256 % 256, m % 256]

/-- Read a big-endian `u16` from the front of a buffer; `none` when fewer than
two bytes remain (`struct.unpack` raises in that case). -/
def readU16? (bs : List Nat) : Option Int :=
  if bs.length < 2 then none else some ((beNat (bs.take 2) : Int))

/-- Read a big-endian `u32` from the front of a buffer; `none` when fewer than
four bytes remain. -/
def readU32? (bs : List Nat) : Option Int :=
  if bs.length < 4 then none else some ((beNat (bs.take 4) : Int))

/-- Read `n` consecutive big-endian `u32` values (`struct.unpack` format
`>{n}I`). -/
def readU32List? : Nat → List Nat → Option (List Int)
  | 0, _ => some []
  | n + 1, bs =>
    match readU32? bs, readU32List? n (bs.drop 4) with
    | some v, some vs => some (v :: vs)
    | _, _ => none

/-- `struct.pack` with a `4s` item truncates a longer byte string to 4 bytes
and zero-pads a shorter one. -/
def fix4 (s : List Nat) : List Nat := s.take 4 ++ List.replicate (4 - s.length) 0

/-- Number of filler bytes needed to round `n` up to a multiple of 32. -/
def pad32 (n : Nat) : Nat := (32 - n % 32) % 32

/-- `n` rounded up to a multiple of 32. -/
def align32 (n : Nat) : Nat := n + pad32 n

/-- `pak.aligned_to_32_bytes`: right-pad a byte string to a 32-byte boundary
with `0xFF` filler bytes. -/
def aligned_to_32_bytes (bytes_to_align : List Nat) : List Nat :=
  bytes_to_align ++ List.replicate (pad32 bytes_to_align.length) 255

/-- Index of the first occurrence of two consecutive zero bytes
(`bytes.index` with needle `b"\x00\x00"`); `none` when absent. -/
def findDoubleZero : List Nat → Option Nat
  | [] => none
  | [_] => none
  | a :: b :: rest =>
    if a = 0 ∧ b = 0 then some 0
    else (findDoubleZero (b :: rest)).map (· + 1)

/-- Index of the first zero byte (`bytes.index` with needle `b"\x00"`). -/
def firstZeroIdx : List Nat → Option Nat
  | [] => none
  | b :: rest => if b = 0 then some 0 else (firstZeroIdx rest).map (· + 1)

/-- UTF-16 big-endian byte encoding of a string, the string being modelled as
its list of UTF-16 code units (each `< 2^16`; astral characters appear as a
surrogate pair of units, exactly as they do in a CPython `str`). -/
def utf16beBytes (units : List Nat) : List Nat :=
  units.flatMap (fun u => [u / 256 % 256, u % 256])

/-- UTF-16 big-endian decoding into code units; `none` on a buffer of odd
length (where CPython's strict `utf-16_be` codec raises).  CPython's strict
codec additionally rejects unpaired surrogates on both sides; that only
removes inputs symmetrically from encode and decode and is not modelled. -/
def utf16beUnits? : List Nat → Option (List Nat)
  | [] => some []
  | [_] => none
  | a :: b :: rest => (utf16beUnits? rest).map (fun us => (a * 256 + b) :: us)

/-- Strict lexicographic comparison of code-unit lists, matching how Python
compares the `str` components of tuples passed to `sorted`. -/
def unitsLT : List Nat → List Nat → Bool
  | [], [] => false
  | [], _ :: _ => true
  | _ :: _, [] => false
  | a :: as, b :: bs => a < b || (a = b && unitsLT as bs)

/-- Strict lexicographic comparison of `(offset, string)` pairs, as Python
compares 2-tuples. -/
def pairLT (x y : Int × List Nat) : Bool :=
  x.1 < y.1 || (x.1 = y.1 && unitsLT x.2 y.2)

/-- Stable insertion used by `sortPairs`: `x` goes after every element not
strictly greater than it. -/
def insertPair (x : Int × List Nat) : List (Int × List Nat) → List (Int × List Nat)
  | [] => [x]
  | y :: rest => if pairLT x y then x :: y :: rest else y :: insertPair x rest

/-- Stable sort of `(offset, string)` pairs in ascending order.  Python's
`sorted` is a stable sort under the same strict comparison, and stable sorts
agree on their output, so insertion sort models it exactly. -/
def sortPairs : List (Int × List Nat) → List (Int × List Nat)
  | [] => []
  | x :: rest => insertPair x (sortPairs rest)

/-- Starting positions of consecutively laid out blocks: `positionsFrom base
sizes` lists the cumulative start offsets of blocks of the given sizes. -/
def positionsFrom (base : Nat) : List Nat → List Nat
  | [] => []
  | n :: rest => base :: positionsFrom (base + n) rest

/-- Last index in a list satisfying a predicate, mirroring a Python dict
comprehension keyed by that field: later entries overwrite earlier ones. -/
def lastIndexWhere {α : Type} (p : α → Bool) : List α → Option Nat
  | [] => none
  | a :: rest =>
    match lastIndexWhere p rest with
    | some i => some (i + 1)
    | none => if p a then some 0 else none

/-- `strg.STRGLanguageTable`: one 12-byte language directory entry. -/
structure STRGLanguageTable where
  language_ID : List Nat
  strings_offset : Int
  strings_size : Int
deriving DecidableEq

/-- `STRGLanguageTable.from_packed`: `struct.unpack` of format `>4sII` needs
exactly 12 bytes; the tag is decoded with the strict ASCII codec. -/
def STRGLanguageTable.from_packed (packed : List Nat) : Option STRGLanguageTable :=
  if packed.length = 12 ∧ (packed.take 4).all (· < 128) then
    some ⟨packed.take 4, (beNat ((packed.drop 4).take 4) : Int),
      (beNat ((packed.drop 8).take 4) : Int)⟩
  else none

def STRGLanguageTable.packed (t : STRGLanguageTable) : List Nat :=
  fix4 t.language_ID ++ u32Bytes t.strings_offset ++ u32Bytes t.strings_size

def STRGLanguageTable.packed_size (t : STRGLanguageTable) : Nat := t.packed.length

/-- `strg.STRGNameEntry`: one 8-byte name directory entry. -/
structure STRGNameEntry where
  offset : Int
  string_index : Int
deriving DecidableEq

def STRGNameEntry.from_packed (packed : List Nat) : Option STRGNameEntry :=
  if packed.length = 8 then
    some ⟨(beNat (packed.take 4) : Int), (beNat ((packed.drop 4).take 4) : Int)⟩
  else none

def STRGNameEntry.packed (e : STRGNameEntry) : List Nat :=
  u32Bytes e.offset ++ u32Bytes e.string_index

def STRGNameEntry.packed_size (e : STRGNameEntry) : Nat := e.packed.length

/-- `strg.STRGNameTable`. -/
structure STRGNameTable where
  count : Int
  size : Int
  entries : List STRGNameEntry
  names : List (List Nat)
deriving DecidableEq

/-- The entry-reading loop of `STRGNameTable.from_packed`: each entry is
decoded from the 8-byte slice `packed[offset:offset+8]`. -/
def parseNameEntries : Nat → List Nat → Nat → Option (List STRGNameEntry × Nat)
  | 0, _, pos => some ([], pos)
  | n + 1, buf, pos =>
    match STRGNameEntry.from_packed ((buf.drop pos).take 8) with
    | none => none
    | some e => (parseNameEntries n buf (pos + 8)).map (fun pr => (e :: pr.1, pr.2))

/-- One name lookup of `STRGNameTable.from_packed`: scan from `8 + entry.offset`
for the first zero byte (`bytes.index` raises when absent), take the bytes
before it and decode them with the strict ASCII codec. -/
def decodeNameAt (buf : List Nat) (e : STRGNameEntry) : Option (List Nat) :=
  match firstZeroIdx (buf.drop (8 + e.offset.toNat)) with
  | none => none
  | some len =>
    let nm := (buf.drop (8 + e.offset.toNat)).take len
    if nm.all (· < 128) then some nm else none

def decodeNames (buf : List Nat) : List STRGNameEntry → Option (List (List Nat))
  | [] => some []
  | e :: es =>
    match decodeNameAt buf e, decodeNames buf es with
    | some nm, some nms => some (nm :: nms)
    | _, _ => none

def STRGNameTable.from_packed (packed : List Nat) : Option STRGNameTable :=
  if packed.length < 8 then none
  else
    match parseNameEntries (beNat ((packed.take 4))) packed 8 with
    | none => none
    | some (entries, _) =>
      match decodeNames packed entries with
      | none => none
      | some names =>
        some ⟨(beNat (packed.take 4) : Int), (beNat ((packed.drop 4).take 4) : Int),
          entries, names⟩

def STRGNameTable.packed (nt : STRGNameTable) : List Nat :=
  u32Bytes nt.count ++ u32Bytes nt.size
    ++ (nt.entries.map STRGNameEntry.packed).flatten
    ++ (nt.names.map (fun nm => nm ++ [0])).flatten

def STRGNameTable.packed_size (nt : STRGNameTable) : Nat := nt.packed.length

def STRGNameTable.get_string_index_for_name (nt : STRGNameTable) (name : List Nat) :
    Option Int :=
  (nt.names.findIdx? (· == name)).bind (fun i => (nt.entries[i]?).map (·.string_index))

/-- `strg.STRGStringTable`: offsets and strings are index-parallel; strings
are modelled as lists of UTF-16 code units. -/
structure STRGStringTable where
  count : Int
  offsets : List Int
  strings : List (List Nat)
deriving DecidableEq

/-- One string lookup of `STRGStringTable.from_packed`: scan from `offset` for
the first double-zero sentinel (`bytes.index` raises when absent) and decode
the bytes before it as UTF-16BE. -/
def decodeStringAt (buf : List Nat) (off : Int) : Option (List Nat) :=
  match findDoubleZero (buf.drop off.toNat) with
  | none => none
  | some len => utf16beUnits? ((buf.drop off.toNat).take len)

def decodeStringsAt (buf : List Nat) : List Int → Option (List (List Nat))
  | [] => some []
  | o :: os =>
    match decodeStringAt buf o, decodeStringsAt buf os with
    | some s, some ss => some (s :: ss)
    | _, _ => none

/-- `STRGStringTable.from_packed`: `struct.unpack` of format `>{n}I` applied to
`packed[:4*n]` needs the buffer to hold at least `4*n` bytes (and a negative
count makes the format string itself invalid). -/
def STRGStringTable.from_packed (packed : List Nat) (string_count : Int) :
    Option STRGStringTable :=
  if string_count < 0 then none
  else if packed.length < 4 * string_count.toNat then none
  else
    match readU32List? string_count.toNat packed with
    | none => none
    | some offsets =>
      (decodeStringsAt packed offsets).map (fun strings => ⟨string_count, offsets, strings⟩)

/-- `STRGStringTable.packed`: the offset words followed by the strings emitted
in ascending `(offset, string)` order.  `struct.pack` with format `>{count}I`
raises when `count` differs from the number of offsets or an offset is out of
`u32` range; well-formed tables stay inside both conditions. -/
def STRGStringTable.packed (t : STRGStringTable) : List Nat :=
  (t.offsets.map u32Bytes).flatten
    ++ ((sortPairs (t.offsets.zip t.strings)).map
        (fun pr => utf16beBytes pr.2 ++ [0, 0])).flatten

def STRGStringTable.packed_size (t : STRGStringTable) : Nat := t.packed.length

/-- `STRGStringTable.with_string_replaced`: offsets at or before `index` are
kept, later offsets are shifted by the encoded-size delta, and the string at
`index` is swapped (`self.strings[index]` raises on an out-of-range index). -/
def STRGStringTable.with_string_replaced (t : STRGStringTable) (index : Nat)
    (new_string : List Nat) : Option STRGStringTable :=
  match t.strings[index]? with
  | none => none
  | some old =>
    let size_diff : Int :=
      ((utf16beBytes new_string).length : Int) - ((utf16beBytes old).length : Int)
    some ⟨t.count,
      t.offsets.take (index + 1) ++ (t.offsets.drop (index + 1)).map (· + size_diff),
      t.strings.take index ++ new_string :: t.strings.drop (index + 1)⟩

/-- `strg.STRG`. -/
structure STRG where
  magic_number : Int
  version : Int
  language_count : Int
  string_count : Int
  language_tables : List STRGLanguageTable
  name_table : STRGNameTable
  string_tables : List STRGStringTable
deriving DecidableEq

/-- The language-table loop of `STRG.from_packed`: entries decoded from the
12-byte slices `packed[offset:offset+12]`. -/
def parseLanguageTables : Nat → List Nat → Nat → Option (List STRGLanguageTable × Nat)
  | 0, _, pos => some ([], pos)
  | n + 1, buf, pos =>
    match STRGLanguageTable.from_packed ((buf.drop pos).take 12) with
    | none => none
    | some t => (parseLanguageTables n buf (pos + 12)).map (fun pr => (t :: pr.1, pr.2))

/-- The string-table loop of `STRG.from_packed`: each language's table is
decoded from `packed[base+strings_offset : base+strings_offset+strings_size]`. -/
def decodeStringTables (buf : List Nat) (base : Nat) (string_count : Int) :
    List STRGLanguageTable → Option (List STRGStringTable)
  | [] => some []
  | lt :: lts =>
    match
      STRGStringTable.from_packed
        ((buf.drop (base + lt.strings_offset.toNat)).take lt.strings_size.toNat)
        string_count,
      decodeStringTables buf base string_count lts with
    | some st, some sts => some (st :: sts)
    | _, _ => none

def STRG.from_packed (packed : List Nat) : Option STRG :=
  if packed.length < 16 then none
  else
    match parseLanguageTables (beNat ((packed.drop 8).take 4)) packed 16 with
    | none => none
    | some (language_tables, pos) =>
      match STRGNameTable.from_packed (packed.drop pos) with
      | none => none
      | some nt =>
        (decodeStringTables packed (pos + 8 + nt.size.toNat)
            (beNat ((packed.drop 12).take 4) : Int) language_tables).map
          (fun sts =>
            ⟨(beNat (packed.take 4) : Int), (beNat ((packed.drop 4).take 4) : Int),
              (beNat ((packed.drop 8).take 4) : Int), (beNat ((packed.drop 12).take 4) : Int),
              language_tables, nt, sts⟩)

def STRG.packed_content_size (s : STRG) : Nat :=
  4 + 4 + 4 + 4 + (s.language_tables.map STRGLanguageTable.packed_size).sum
    + s.name_table.packed_size + (s.string_tables.map STRGStringTable.packed_size).sum

def STRG.packed_padding_size (s : STRG) : Nat := pad32 s.packed_content_size

def STRG.packed_size (s : STRG) : Nat := s.packed_content_size + s.packed_padding_size

def STRG.packed (s : STRG) : List Nat :=
  u32Bytes s.magic_number ++ u32Bytes s.version ++ u32Bytes s.language_count
    ++ u32Bytes s.string_count
    ++ (s.language_tables.map STRGLanguageTable.packed).flatten
    ++ s.name_table.packed
    ++ (s.string_tables.map STRGStringTable.packed).flatten
    ++ List.replicate s.packed_padding_size 255

/-- The `_language_ID_to_index_map` built in `STRG.__post_init__`: a dict keyed
by language tag, so a duplicated tag maps to its last index. -/
def STRG.languageIDToIndex (s : STRG) (language_ID : List Nat) : Option Nat :=
  lastIndexWhere (fun lt => lt.language_ID == language_ID) s.language_tables

def STRG.get_string_table_by_language_ID (s : STRG) (language_ID : List Nat) :
    Option STRGStringTable :=
  (s.languageIDToIndex language_ID).bind (fun i => s.string_tables[i]?)

/-- `STRG.with_string_table_replaced`, mirroring the source exactly: the tagged
entry's `strings_size` becomes the new table's `packed_size`, and each later
entry's new `strings_offset` is computed from that entry's old `strings_size`
field plus the size delta (`strg.py` line 221 reads `strings_size`, not
`strings_offset`). -/
def STRG.with_string_table_replaced (s : STRG) (language_ID : List Nat)
    (new_string_table : STRGStringTable) : Option STRG :=
  match s.languageIDToIndex language_ID with
  | none => none
  | some table_index =>
    match s.language_tables[table_index]? with
    | none => none
    | some old_language_table =>
      let new_language_table : STRGLanguageTable :=
        { old_language_table with strings_size := (new_string_table.packed_size : Int) }
      let size_diff : Int :=
        new_language_table.strings_size - old_language_table.strings_size
      some { s with
        language_tables :=
          s.language_tables.take table_index ++ new_language_table ::
            (s.language_tables.drop (table_index + 1)).map
              (fun lt => { lt with strings_offset := lt.strings_size + size_diff }),
        string_tables :=
          s.string_tables.take table_index ++ new_string_table ::
            s.string_tables.drop (table_index + 1) }

/-- `pak.NamedResourceTable`. -/
structure NamedResourceTable where
  asset_type : List Nat
  asset_ID : Int
  name_length : Int
  name : List Nat
deriving DecidableEq

/-- `NamedResourceTable.from_packed`: the fixed 12-byte prefix followed by
`name_length` name bytes (a Python slice, so silently short near the buffer
end).  `util.unpack_ascii` and `util.pack_ascii` are modelled from the spec:
`util.py` is not part of this repository snapshot and the spec describes the
name handling as 8-bit clean, so both are the identity on byte sequences. -/
def NamedResourceTable.from_packed (packed : List Nat) : Option NamedResourceTable :=
  if packed.length < 12 then none
  else
    some ⟨packed.take 4, (beNat ((packed.drop 4).take 4) : Int),
      (beNat ((packed.drop 8).take 4) : Int),
      (packed.drop 12).take (beNat ((packed.drop 8).take 4))⟩

def NamedResourceTable.packed (t : NamedResourceTable) : List Nat :=
  fix4 t.asset_type ++ u32Bytes t.asset_ID ++ u32Bytes t.name_length ++ t.name

def NamedResourceTable.packed_size (t : NamedResourceTable) : Nat := t.packed.length

/-- `pak.ResourceTable`: one fixed 20-byte resource directory entry. -/
structure ResourceTable where
  compressed : Bool
  asset_type : List Nat
  asset_ID : Int
  size : Int
  offset : Int
deriving DecidableEq

/-- `ResourceTable.from_packed`: `struct.unpack` of format `>I4sIII` needs
exactly 20 bytes; `bool(compressed_int)` is true for any nonzero word. -/
def ResourceTable.from_packed (packed : List Nat) : Option ResourceTable :=
  if packed.length = 20 then
    some ⟨beNat (packed.take 4) != 0, (packed.drop 4).take 4,
      (beNat ((packed.drop 8).take 4) : Int), (beNat ((packed.drop 12).take 4) : Int),
      (beNat ((packed.drop 16).take 4) : Int)⟩
  else none

def ResourceTable.packed (t : ResourceTable) : List Nat :=
  u32Bytes (if t.compressed then 1 else 0) ++ fix4 t.asset_type ++ u32Bytes t.asset_ID
    ++ u32Bytes t.size ++ u32Bytes t.offset

def ResourceTable.packed_size (t : ResourceTable) : Nat := t.packed.length

/-- `pak.UnimplementedResource`: the pass-through codec that stores the raw
payload bytes. -/
structure UnimplementedResource where
  data : List Nat
deriving DecidableEq

def UnimplementedResource.from_packed (packed : List Nat) : UnimplementedResource :=
  ⟨packed⟩

def UnimplementedResource.packed (u : UnimplementedResource) : List Nat := u.data

def UnimplementedResource.packed_size (u : UnimplementedResource) : Nat := u.data.length

/-- The codecs `PAK.from_packed` can dispatch to: the five entries of the
static `PAK.asset_classes` table, the scan-tree codec selected by the reserved
identifier, and the `UnimplementedResource` fallback. -/
inductive AssetClass
  | scanTree
  | dgrp
  | dumb
  | hint
  | scan
  | strg
  | unimplemented
deriving DecidableEq

def tagDGRP : List Nat := [68, 71, 82, 80]

def tagDUMB : List Nat := [68, 85, 77, 66]

def tagHINT : List Nat := [72, 73, 78, 84]

def tagSCAN : List Nat := [83, 67, 65, 78]

def tagSTRG : List Nat := [83, 84, 82, 71]

/-- The static `PAK.asset_classes` dict mapping 4-character type tags to
codecs. -/
def asset_classes : List (List Nat × AssetClass) :=
  [(tagDGRP, .dgrp), (tagDUMB, .dumb), (tagHINT, .hint), (tagSCAN, .scan), (tagSTRG, .strg)]

/-- The codec dispatch of `PAK.from_packed` (`pak.py` lines 144-147): the
reserved identifier `0x95B61279` selects the scan-tree codec regardless of the
type tag; otherwise the tag is looked up in `asset_classes`, with
`UnimplementedResource` as the `dict.get` default. -/
def assetClassFor (t : ResourceTable) : AssetClass :=
  if t.asset_ID = 0x95B61279 then .scanTree
  else (asset_classes.lookup t.asset_type).getD .unimplemented

/-- A decoded resource payload.  The codecs for `DGRP`, `DUMB`, `HINT`, `SCAN`
and the scan tree live outside this repository snapshot; modelled from the
spec, which treats them as external asset codecs behind the uniform codec
contract, their payloads are carried as byte blobs tagged with the selected
codec. -/
inductive Resource
  | strg (s : STRG)
  | foreignAsset (cls : AssetClass) (data : List Nat)
  | unimplemented (u : UnimplementedResource)
deriving DecidableEq

def Resource.packed : Resource → List Nat
  | .strg s => s.packed
  | .foreignAsset _ data => data
  | .unimplemented u => u.packed

def Resource.packed_size : Resource → Nat
  | .strg s => s.packed_size
  | .foreignAsset _ data => data.length
  | .unimplemented u => u.packed_size

/-- The `asset_type` attribute read by `with_resource_inserted`:
`STRG.asset_type` is the class attribute `"STRG"`, while
`UnimplementedResource` declares no such attribute, so the access raises
`AttributeError` (`none`).  For the external asset classes the attribute is
modelled from the spec's tag-to-codec table; the spec does not state a
declared tag for the scan tree. -/
def Resource.assetTypeAttr : Resource → Option (List Nat)
  | .strg _ => some tagSTRG
  | .foreignAsset .dgrp _ => some tagDGRP
  | .foreignAsset .dumb _ => some tagDUMB
  | .foreignAsset .hint _ => some tagHINT
  | .foreignAsset .scan _ => some tagSCAN
  | .foreignAsset _ _ => none
  | .unimplemented _ => none

/-- Decode one resource payload with the selected codec. -/
def decodeResource (cls : AssetClass) (data : List Nat) : Option Resource :=
  match cls with
  | .strg => (STRG.from_packed data).map .strg
  | .unimplemented => some (.unimplemented (UnimplementedResource.from_packed data))
  | c => some (.foreignAsset c data)

/-- `pak.PAK`. -/
structure PAK where
  major_version : Int
  minor_version : Int
  unused : Int
  named_resource_count : Int
  named_resource_tables : List NamedResourceTable
  resource_count : Int
  resource_tables : List ResourceTable
  resources : List Resource
deriving DecidableEq

/-- The named-table loop of `PAK.from_packed`: each table is decoded from the
suffix `packed[offset:]` and advances the cursor by `12 + table.name_length`. -/
def parseNamedTables : Nat → List Nat → Nat → Option (List NamedResourceTable × Nat)
  | 0, _, pos => some ([], pos)
  | n + 1, buf, pos =>
    match NamedResourceTable.from_packed (buf.drop pos) with
    | none => none
    | some t =>
      (parseNamedTables n buf (pos + 12 + t.name_length.toNat)).map
        (fun pr => (t :: pr.1, pr.2))

/-- The resource-table loop of `PAK.from_packed`: entries decoded from the
20-byte slices `packed[offset:offset+20]`. -/
def parseResourceTables : Nat → List Nat → Nat → Option (List ResourceTable × Nat)
  | 0, _, pos => some ([], pos)
  | n + 1, buf, pos =>
    match ResourceTable.from_packed ((buf.drop pos).take 20) with
    | none => none
    | some t => (parseResourceTables n buf (pos + 20)).map (fun pr => (t :: pr.1, pr.2))

/-- The resource loop of `PAK.from_packed`: each payload slice
`packed[offset:offset+size]` is handed to the codec selected by
`assetClassFor`. -/
def decodeResources (buf : List Nat) : List ResourceTable → Option (List Resource)
  | [] => some []
  | t :: ts =>
    match decodeResource (assetClassFor t) ((buf.drop t.offset.toNat).take t.size.toNat),
      decodeResources buf ts with
    | some r, some rs => some (r :: rs)
    | _, _ => none

/-- `PAK.from_packed`.  `util.unpack_int` (not in this snapshot) is modelled
from the spec as a big-endian `u32` read. -/
def PAK.from_packed (packed : List Nat) : Option PAK :=
  if packed.length < 12 then none
  else
    match parseNamedTables (beNat ((packed.drop 8).take 4)) packed 12 with
    | none => none
    | some (named_resource_tables, pos) =>
      match readU32? (packed.drop pos) with
      | none => none
      | some resource_count =>
        match parseResourceTables resource_count.toNat packed (pos + 4) with
        | none => none
        | some (resource_tables, _) =>
          (decodeResources packed resource_tables).map (fun resources =>
            ⟨(beNat (packed.take 2) : Int), (beNat ((packed.drop 2).take 2) : Int),
              (beNat ((packed.drop 4).take 4) : Int), (beNat ((packed.drop 8).take 4) : Int),
              named_resource_tables, resource_count, resource_tables, resources⟩)

def PAK.packed_content_before_resources_size (p : PAK) : Nat :=
  2 + 2 + 4 + 4 + (p.named_resource_tables.map NamedResourceTable.packed_size).sum
    + 4 + (p.resource_tables.map ResourceTable.packed_size).sum

def PAK.packed_padding_before_resources_size (p : PAK) : Nat :=
  pad32 p.packed_content_before_resources_size

/-- `PAK.packed_size`: header region plus padding plus the sum of the
resources' own (unpadded) `packed_size` values, exactly as the source computes
it. -/
def PAK.packed_size (p : PAK) : Nat :=
  p.packed_content_before_resources_size + p.packed_padding_before_resources_size
    + (p.resources.map Resource.packed_size).sum

/-- `PAK.packed`: the padding before the resource region is emitted as
`b"\x00" * padding` (`pak.py` line 185), while each resource's encoding is
individually right-padded to 32 bytes with `0xFF` by `aligned_to_32_bytes`. -/
def PAK.packed (p : PAK) : List Nat :=
  u16Bytes p.major_version ++ u16Bytes p.minor_version ++ u32Bytes p.unused
    ++ u32Bytes p.named_resource_count
    ++ (p.named_resource_tables.map NamedResourceTable.packed).flatten
    ++ u32Bytes p.resource_count
    ++ (p.resource_tables.map ResourceTable.packed).flatten
    ++ List.replicate p.packed_padding_before_resources_size 0
    ++ (p.resources.map (fun r => aligned_to_32_bytes r.packed)).flatten

/-- The `_asset_ID_to_index_map` built in `PAK.__post_init__`: a dict keyed by
identifier, so a duplicated identifier maps to its last index. -/
def PAK.assetIDToIndex (p : PAK) (asset_ID : Int) : Option Nat :=
  lastIndexWhere (fun t => t.asset_ID == asset_ID) p.resource_tables

def PAK.get_resource_by_asset_ID (p : PAK) (asset_ID : Int) : Option Resource :=
  (p.assetIDToIndex asset_ID).bind (fun i => p.resources[i]?)

/-- `PAK.with_resource_inserted`.  The new entry's offset comes from the last
table entry when inserting at the end (`resource_tables[-1]`, an `IndexError`
on an empty container) and from the entry at `index` otherwise; the new
entry's type tag is the inserted resource's `asset_type` attribute
(`AttributeError` when the resource has none). -/
def PAK.with_resource_inserted (p : PAK) (index : Nat) (asset_ID : Int)
    (new_resource : Resource) : Option PAK :=
  match
    (if (index : Int) = p.resource_count then
      p.resource_tables.getLast?.map (fun t => t.offset + t.size)
    else
      (p.resource_tables[index]?).map (·.offset)),
    new_resource.assetTypeAttr with
  | some newOffset, some tag =>
    some { p with
      resource_count := p.resource_count + 1,
      resource_tables :=
        p.resource_tables.take index ++
          (⟨false, tag, asset_ID, (new_resource.packed_size : Int), newOffset⟩ :
              ResourceTable) ::
            (p.resource_tables.drop index).map
              (fun t => { t with offset := t.offset + (new_resource.packed_size : Int) }),
      resources := p.resources.take index ++ new_resource :: p.resources.drop index }
  | _, _ => none

def PAK.with_resource_appended (p : PAK) (asset_ID : Int) (new_resource : Resource) :
    Option PAK :=
  p.with_resource_inserted p.resource_count.toNat asset_ID new_resource

/-- `PAK.with_resource_removed`: drops the pair at `index`
(`self.resources[index]` raises on an out-of-range index) and shifts every
later entry's offset down by the removed resource's `packed_size`. -/
def PAK.with_resource_removed (p : PAK) (index : Nat) : Option PAK :=
  (p.resources[index]?).map (fun removed_resource =>
    { p with
      resource_count := p.resource_count - 1,
      resource_tables :=
        p.resource_tables.take index ++
          (p.resource_tables.drop (index + 1)).map
            (fun t => { t with offset := t.offset - (removed_resource.packed_size : Int) }),
      resources := p.resources.take index ++ p.resources.drop (index + 1) })

/-- The Python exceptions `PAK.with_resource_removed_by_asset_ID` can raise. -/
inductive PyErr
  | keyError
  | typeError
deriving DecidableEq

/-- `PAK.with_resource_removed_by_asset_ID` (`pak.py` line 237):
`return self.with_resource_removed(self, self._asset_ID_to_index_map[asset_ID])`.
The dict subscript raises `KeyError` for an absent identifier; otherwise the
bound method `with_resource_removed`, whose single parameter is an index, is
called with two positional arguments — the container itself where the index is
expected, plus the resolved index — so Python raises `TypeError` before any
removal takes place. -/
def PAK.with_resource_removed_by_asset_ID (p : PAK) (asset_ID : Int) : Except PyErr PAK :=
  match p.assetIDToIndex asset_ID with
  | none => .error .keyError
  | some _ => .error .typeError

def PAK.with_resource_replaced (p : PAK) (index : Nat) (new_resource : Resource) :
    Option PAK :=
  (p.resource_tables[index]?).bind (fun t =>
    (p.with_resource_removed index).bind
      (fun q => q.with_resource_inserted index t.asset_ID new_resource))

def PAK.with_resource_replaced_by_asset_ID (p : PAK) (asset_ID : Int)
    (new_resource : Resource) : Option PAK :=
  (p.assetIDToIndex asset_ID).bind (fun index =>
    (p.with_resource_removed index).bind
      (fun q => q.with_resource_inserted index asset_ID new_resource))

/-- Range check for a field packed with `struct` format `H`. -/
def u16Range (n : Int) : Prop := 0 ≤ n ∧ n < 65536

/-- Range check for a field packed with `struct` format `I`. -/
def u32Range (n : Int) : Prop := 0 ≤ n ∧ n < 4294967296

instance (n : Int) : Decidable (u16Range n) := by unfold u16Range; infer_instance

instance (n : Int) : Decidable (u32Range n) := by unfold u32Range; infer_instance

/-- A string whose encoding scans back correctly: all code units in range and
no double-zero byte pair before the terminating sentinel (the decoder scans at
every byte position, so e.g. a unit with a zero low byte followed by one with
a zero high byte would end the scan early). -/
def strOK (s : List Nat) : Prop :=
  (∀ u ∈ s, u < 65536) ∧
  findDoubleZero (utf16beBytes s ++ [0, 0]) = some (utf16beBytes s).length

instance (s : List Nat) : Decidable (strOK s) := by unfold strOK; infer_instance

/-- Well-formed `STRGStringTable`: parallel offset/string lists, offsets equal
to the cumulative emission positions after the offset words (hence ascending,
making the ascending-offset emission order coincide with index order), and
scannable strings. -/
def WFStringTable (t : STRGStringTable) : Prop :=
  t.count = (t.offsets.length : Int) ∧
  t.strings.length = t.offsets.length ∧
  t.offsets =
    (positionsFrom (4 * t.strings.length)
      (t.strings.map (fun s => (utf16beBytes s).length + 2))).map Int.ofNat ∧
  (∀ s ∈ t.strings, strOK s) ∧
  (∀ o ∈ t.offsets, u32Range o) ∧
  sortPairs (t.offsets.zip t.strings) = t.offsets.zip t.strings

instance (t : STRGStringTable) : Decidable (WFStringTable t) := by
  unfold WFStringTable; infer_instance

/-- Well-formed `STRGNameTable`: the `size` field covers exactly the entry and
name bytes after the 8-byte header, entry offsets are the cumulative name
positions, and names are nonzero ASCII bytes. -/
def WFNameTable (nt : STRGNameTable) : Prop :=
  nt.count = (nt.entries.length : Int) ∧
  u32Range nt.count ∧
  nt.names.length = nt.entries.length ∧
  (nt.size : Int) = (nt.packed.length : Int) - 8 ∧
  u32Range nt.size ∧
  nt.entries.map STRGNameEntry.offset =
    (positionsFrom (8 * nt.entries.length) (nt.names.map (fun nm => nm.length + 1))).map
      Int.ofNat ∧
  (∀ e ∈ nt.entries, u32Range e.offset ∧ u32Range e.string_index) ∧
  (∀ nm ∈ nt.names, ∀ b ∈ nm, b < 128 ∧ b ≠ 0)

instance (nt : STRGNameTable) : Decidable (WFNameTable nt) := by
  unfold WFNameTable; infer_instance

def WFLanguageTable (lt : STRGLanguageTable) : Prop :=
  lt.language_ID.length = 4 ∧ (∀ b ∈ lt.language_ID, b < 128) ∧
  u32Range lt.strings_offset ∧ u32Range lt.strings_size

instance (lt : STRGLanguageTable) : Decidable (WFLanguageTable lt) := by
  unfold WFLanguageTable; infer_instance

/-- Well-formed `STRG`: counts match list lengths, all sub-tables are
well-formed with the shared `string_count`, and the language entries' offsets
and sizes describe the string tables laid out back to back after the name
table. -/
def WFSTRG (s : STRG) : Prop :=
  u32Range s.magic_number ∧ u32Range s.version ∧
  s.language_count = (s.language_tables.length : Int) ∧ u32Range s.language_count ∧
  u32Range s.string_count ∧
  s.string_tables.length = s.language_tables.length ∧
  WFNameTable s.name_table ∧
  (∀ lt ∈ s.language_tables, WFLanguageTable lt) ∧
  (∀ st ∈ s.string_tables, WFStringTable st ∧ st.count = s.string_count) ∧
  s.language_tables.map STRGLanguageTable.strings_offset =
    (positionsFrom 0 (s.string_tables.map STRGStringTable.packed_size)).map
      Int.ofNat ∧
  s.language_tables.map STRGLanguageTable.strings_size =
    s.string_tables.map (fun st => (st.packed_size : Int))

instance (s : STRG) : Decidable (WFSTRG s) := by unfold WFSTRG; infer_instance

def WFNamedTable (t : NamedResourceTable) : Prop :=
  t.asset_type.length = 4 ∧ (∀ b ∈ t.asset_type, b < 256) ∧
  u32Range t.asset_ID ∧
  t.name_length = (t.name.length : Int) ∧ u32Range t.name_length ∧
  (∀ b ∈ t.name, b < 256)

def WFResourceTable (t : ResourceTable) : Prop :=
  t.asset_type.length = 4 ∧ (∀ b ∈ t.asset_type, b < 256) ∧
  u32Range t.asset_ID ∧ u32Range t.size ∧ u32Range t.offset

instance (t : NamedResourceTable) : Decidable (WFNamedTable t) := by
  unfold WFNamedTable; infer_instance

instance (t : ResourceTable) : Decidable (WFResourceTable t) := by
  unfold WFResourceTable; infer_instance

/-- The directory entry selects, via `assetClassFor`, exactly the codec whose
decoded form the paired resource is; the external codecs (absent from this
snapshot) are excluded. -/
def dispatchOK : ResourceTable → Resource → Prop
  | t, .strg s => assetClassFor t = .strg ∧ WFSTRG s
  | t, .unimplemented _ => assetClassFor t = .unimplemented
  | _, .foreignAsset _ _ => False

instance (t : ResourceTable) (r : Resource) : Decidable (dispatchOK t r) := by
  cases r <;> simp only [dispatchOK] <;> infer_instance

/-- Well-formed `PAK`: counts match list lengths, tables and resources are
index-parallel, each entry's `size` is its resource's encoded size, each
entry's `offset` is the layout position of its resource (header region plus
the 32-byte-aligned sizes of the preceding resources), and each entry
dispatches to the codec of its paired resource. -/
def WFPAK (p : PAK) : Prop :=
  u16Range p.major_version ∧ u16Range p.minor_version ∧ u32Range p.unused ∧
  p.named_resource_count = (p.named_resource_tables.length : Int) ∧
  u32Range p.named_resource_count ∧
  p.resource_count = (p.resource_tables.length : Int) ∧ u32Range p.resource_count ∧
  p.resources.length = p.resource_tables.length ∧
  (∀ t ∈ p.named_resource_tables, WFNamedTable t) ∧
  (∀ t ∈ p.resource_tables, WFResourceTable t) ∧
  p.resource_tables.map ResourceTable.size =
    p.resources.map (fun r => (r.packed_size : Int)) ∧
  p.resource_tables.map ResourceTable.offset =
    (positionsFrom
      (p.packed_content_before_resources_size + p.packed_padding_before_resources_size)
      (p.resources.map (fun r => align32 r.packed_size))).map Int.ofNat ∧
  (∀ pr ∈ p.resource_tables.zip p.resources, dispatchOK pr.1 pr.2)

instance (p : PAK) : Decidable (WFPAK p) := by unfold WFPAK; infer_instance

def tagAAAA : List Nat := [65, 65, 65, 65]

def tagENGL : List Nat := [69, 78, 71, 76]

def tagFREN : List Nat := [70, 82, 69, 78]

/-- An empty name table (count 0, size 0). -/
def emptyNameTable : STRGNameTable := ⟨0, 0, [], []⟩

/-- A name table holding the single name `name` for string index 0. -/
def oneNameTable : STRGNameTable := ⟨1, 13, [⟨8, 0⟩], [[110, 97, 109, 101]]⟩

/-- One-string table holding `AB`; encoded size 10. -/
def stEngl : STRGStringTable := ⟨1, [4], [[65, 66]]⟩

/-- One-string table holding `C`; encoded size 8. -/
def stFren : STRGStringTable := ⟨1, [4], [[67]]⟩

/-- One-string table holding `ABXY`; encoded size 14. -/
def stEnglBig : STRGStringTable := ⟨1, [4], [[65, 66, 88, 89]]⟩

/-- A one-language STRG with a single one-character string; encoded size 64. -/
def strgOne : STRG :=
  ⟨3735928559, 0, 1, 1, [⟨tagENGL, 0, 8⟩], emptyNameTable, [⟨1, [4], [[65]]⟩]⟩

/-- A two-language STRG (`ENGL` then `FREN`), one string per language, with a
one-entry name table; encoded size 96. -/
def strgTwoLang : STRG :=
  ⟨3735928559, 0, 2, 1, [⟨tagENGL, 0, 10⟩, ⟨tagFREN, 10, 8⟩], oneNameTable,
    [stEngl, stFren]⟩

/-- A PAK with no resources at all. -/
def pakEmpty : PAK := ⟨2, 0, 0, 0, [], 0, [], []⟩

/-- A PAK holding one opaque 1-byte resource at layout offset 64. -/
def pakOneByte : PAK :=
  ⟨2, 0, 0, 0, [], 1, [⟨false, tagAAAA, 7, 1, 64⟩], [.unimplemented ⟨[66]⟩]⟩

/-- A PAK holding `strgTwoLang` as its single (named) resource. -/
def pakSTRG : PAK :=
  ⟨2, 0, 0, 1, [⟨tagSTRG, 3, 4, [116, 101, 115, 116]⟩], 1,
    [⟨false, tagSTRG, 3, 96, 64⟩], [.strg strgTwoLang]⟩

theorem u16Bytes_length (n : Int) : (u16Bytes n).length = 2 := rfl

theorem u32Bytes_length (n : Int) : (u32Bytes n).length = 4 := rfl

theorem beNat_u16Bytes (n : Int) (h0 : 0 ≤ n) (h1 : n < 65536) :
    (beNat (u16Bytes n) : Int) = n := by
  have hm : n.emod 65536 = n := Int.emod_eq_of_lt h0 h1
  simp only [u16Bytes, beNat, List.foldl, hm]
  omega

theorem beNat_u32Bytes (n : Int) (h0 : 0 ≤ n) (h1 : n < 4294967296) :
    (beNat (u32Bytes n) : Int) = n := by
  have hm : n.emod 4294967296 = n := Int.emod_eq_of_lt h0 h1
  simp only [u32Bytes, beNat, List.foldl, hm]
  omega

theorem readU16?_append (n : Int) (rest : List Nat) (h0 : 0 ≤ n) (h1 : n < 65536) :
    readU16? (u16Bytes n ++ rest) = some n := by
  have hlen : (u16Bytes n ++ rest).length = 2 + rest.length := by
    simp [u16Bytes_length]
  unfold readU16?
  rw [if_neg (by omega), List.take_left' (u16Bytes_length n), beNat_u16Bytes n h0 h1]

theorem readU32?_append (n : Int) (rest : List Nat) (h0 : 0 ≤ n) (h1 : n < 4294967296) :
    readU32? (u32Bytes n ++ rest) = some n := by
  have hlen : (u32Bytes n ++ rest).length = 4 + rest.length := by
    simp [u32Bytes_length]
  unfold readU32?
  rw [if_neg (by omega), List.take_left' (u32Bytes_length n), beNat_u32Bytes n h0 h1]

theorem utf16beBytes_cons (u : Nat) (us : List Nat) :
    utf16beBytes (u :: us) = u / 256 % 256 :: u % 256 :: utf16beBytes us := rfl

theorem utf16beBytes_length (s : List Nat) : (utf16beBytes s).length = 2 * s.length := by
  induction s with
  | nil => rfl
  | cons u us ih =>
    rw [utf16beBytes_cons]
    simp only [List.length_cons, ih]
    omega

theorem utf16beUnits?_utf16beBytes (s : List Nat) (h : ∀ u ∈ s, u < 65536) :
    utf16beUnits? (utf16beBytes s) = some s := by
  induction s with
  | nil => rfl
  | cons u us ih =>
    rw [utf16beBytes_cons]
    simp only [utf16beUnits?]
    rw [ih (fun x hx => h x (List.mem_cons_of_mem _ hx))]
    simp only [Option.map_some']
    have hu : u < 65536 := h u (List.mem_cons_self _ _)
    have h2 : u / 256 % 256 * 256 + u % 256 = u := by omega
    rw [h2]

theorem findDoubleZero_extend (a r : List Nat)
    (h : findDoubleZero (a ++ [0, 0]) = some a.length) :
    findDoubleZero (a ++ 0 :: 0 :: r) = some a.length := by
  induction a with
  | nil => simp [findDoubleZero]
  | cons x t ih =>
    cases t with
    | nil =>
      by_cases hx : x = 0
      · subst hx; simp [findDoubleZero] at h
      · simp only [List.cons_append, List.nil_append, findDoubleZero, hx, false_and,
          if_false, List.length_cons, List.length_nil]
        simp [findDoubleZero]
    | cons y t' =>
      simp only [List.cons_append, findDoubleZero, List.append_eq] at h ⊢
      by_cases hxy : x = 0 ∧ y = 0
      · rw [if_pos hxy] at h
        simp [List.length_cons] at h
      · rw [if_neg hxy] at h ⊢
        cases hfd : findDoubleZero (y :: (t' ++ [0, 0])) with
        | none => rw [hfd] at h; simp at h
        | some v =>
          rw [hfd] at h
          simp only [Option.map_some'] at h
          have hv : v = (y :: t').length := by
            have h3 := Option.some.inj h
            simp only [List.length_cons] at h3 ⊢
            omega
          have hyt : findDoubleZero ((y :: t') ++ [0, 0]) = some (y :: t').length := by
            simp only [List.cons_append]
            rw [hfd, hv]
          have h2 := ih hyt
          simp only [List.cons_append] at h2
          rw [h2]
          simp only [Option.map_some', List.length_cons]

theorem firstZeroIdx_append (nm r : List Nat) (h : ∀ b ∈ nm, b ≠ 0) :
    firstZeroIdx (nm ++ 0 :: r) = some nm.length := by
  induction nm with
  | nil => simp [firstZeroIdx]
  | cons b t ih =>
    have hb : b ≠ 0 := h b (List.mem_cons_self _ _)
    simp [firstZeroIdx, hb, ih (fun x hx => h x (List.mem_cons_of_mem _ hx))]

theorem insertPair_perm (x : Int × List Nat) (l : List (Int × List Nat)) :
    List.Perm (insertPair x l) (x :: l) := by
  induction l with
  | nil => exact List.Perm.refl _
  | cons y t ih =>
    unfold insertPair
    by_cases hp : pairLT x y = true
    · simp [hp]
    · simp only [hp, if_false]
      exact (ih.cons y).trans (List.Perm.swap x y t)

theorem sortPairs_perm (l : List (Int × List Nat)) : List.Perm (sortPairs l) l := by
  induction l with
  | nil => exact List.Perm.refl _
  | cons x t ih => exact (insertPair_perm x (sortPairs t)).trans (ih.cons x)

theorem map_length_packed {α : Type} (f : α → List Nat) (g : α → Nat)
    (hg : ∀ x, g x = (f x).length) (l : List α) :
    (l.map f).flatten.length = (l.map g).sum := by
  rw [List.length_flatten, List.map_map]
  congr 1
  exact List.map_congr_left (fun x _ => (hg x).symm)

theorem aligned_to_32_bytes_length (bs : List Nat) :
    (aligned_to_32_bytes bs).length = align32 bs.length := by
  simp [aligned_to_32_bytes, align32, List.length_append, List.length_replicate]

theorem align32_of_multiple (n : Nat) (h : n % 32 = 0) : align32 n = n := by
  unfold align32 pad32
  omega

theorem strg_packed_size_eq (s : STRG) : s.packed_size = s.packed.length := by
  have hlang := map_length_packed STRGLanguageTable.packed STRGLanguageTable.packed_size
    (fun t => rfl) s.language_tables
  have hst := map_length_packed STRGStringTable.packed STRGStringTable.packed_size
    (fun t => rfl) s.string_tables
  simp only [STRG.packed, List.length_append, u32Bytes_length, List.length_replicate,
    hlang, hst]
  unfold STRG.packed_size STRG.packed_padding_size STRG.packed_content_size
    STRGNameTable.packed_size pad32
  omega

theorem resource_packed_size_eq (r : Resource) : r.packed_size = r.packed.length := by
  cases r with
  | strg s => exact strg_packed_size_eq s
  | foreignAsset c d => rfl
  | unimplemented u => rfl

theorem pak_packed_length (p : PAK) :
    p.packed.length = p.packed_content_before_resources_size
      + p.packed_padding_before_resources_size
      + (p.resources.map (fun r => align32 r.packed.length)).sum := by
  have hnamed := map_length_packed NamedResourceTable.packed NamedResourceTable.packed_size
    (fun t => rfl) p.named_resource_tables
  have hrt := map_length_packed ResourceTable.packed ResourceTable.packed_size
    (fun t => rfl) p.resource_tables
  have hres : (p.resources.map (fun r => aligned_to_32_bytes r.packed)).flatten.length
      = (p.resources.map (fun r => align32 r.packed.length)).sum := by
    rw [List.length_flatten, List.map_map]
    congr 1
    refine List.map_congr_left (fun r _ => ?_)
    exact aligned_to_32_bytes_length r.packed
  simp only [PAK.packed, List.length_append, u16Bytes_length, u32Bytes_length,
    List.length_replicate, hnamed, hrt, hres]
  unfold PAK.packed_content_before_resources_size PAK.packed_padding_before_resources_size
    pad32
  omega

/-- The bytes of `PAK.packed` before the pre-resource padding. -/
def PAK.headerBytes (p : PAK) : List Nat :=
  u16Bytes p.major_version ++ u16Bytes p.minor_version ++ u32Bytes p.unused
    ++ u32Bytes p.named_resource_count
    ++ (p.named_resource_tables.map NamedResourceTable.packed).flatten
    ++ u32Bytes p.resource_count
    ++ (p.resource_tables.map ResourceTable.packed).flatten

theorem PAK.packed_eq (p : PAK) :
    p.packed = p.headerBytes
      ++ (List.replicate p.packed_padding_before_resources_size 0
        ++ (p.resources.map (fun r => aligned_to_32_bytes r.packed)).flatten) := by
  unfold PAK.packed PAK.headerBytes
  simp [List.append_assoc]

theorem PAK.headerBytes_length (p : PAK) :
    p.headerBytes.length = p.packed_content_before_resources_size := by
  have hnamed := map_length_packed NamedResourceTable.packed NamedResourceTable.packed_size
    (fun t => rfl) p.named_resource_tables
  have hrt := map_length_packed ResourceTable.packed ResourceTable.packed_size
    (fun t => rfl) p.resource_tables
  simp only [PAK.headerBytes, List.length_append, u16Bytes_length, u32Bytes_length,
    hnamed, hrt]
  unfold PAK.packed_content_before_resources_size
  omega

theorem sum_align32_ge (l : List Nat) : l.sum ≤ (l.map align32).sum := by
  induction l with
  | nil => exact Nat.le_refl 0
  | cons x t ih =>
    simp only [List.map_cons, List.sum_cons]
    have hx : x ≤ align32 x := by unfold align32; omega
    omega

theorem sum_align32_eq_iff (l : List Nat) :
    (l.map align32).sum = l.sum ↔ ∀ n ∈ l, n % 32 = 0 := by
  induction l with
  | nil => simp
  | cons x t ih =>
    simp only [List.map_cons, List.sum_cons, List.mem_cons]
    have hx : x ≤ align32 x := by unfold align32; omega
    have ht := sum_align32_ge t
    constructor
    · intro h
      have hx2 : align32 x = x := by omega
      have ht2 : (t.map align32).sum = t.sum := by omega
      have hxmod : x % 32 = 0 := by unfold align32 pad32 at hx2; omega
      intro n hn
      rcases hn with rfl | hn
      · exact hxmod
      · exact ih.mp ht2 n hn
    · intro h
      rw [align32_of_multiple x (h x (Or.inl rfl)),
        ih.mpr (fun n hn => h n (Or.inr hn))]

/-- C1: on a PAK holding one resource with identifier 7,
`with_resource_removed_by_asset_ID(7)` resolves the index (the derived map
gives index 0) but then raises `TypeError` instead of returning the result of
`with_resource_removed(0)`, which does exist: the call passes the container
itself where the index parameter is expected. -/
theorem remove_by_asset_ID_raises_type_error :
    pakOneByte.assetIDToIndex 7 = some 0 ∧
    pakOneByte.with_resource_removed_by_asset_ID 7 = Except.error PyErr.typeError ∧
    (pakOneByte.with_resource_removed 0).isSome = true := ⟨rfl, rfl, rfl⟩

/-- C2: on a conformant two-language STRG (`ENGL` table of size 10 at offset 0,
`FREN` table of size 8 at offset 10), replacing the `ENGL` table with one of
size 14 (delta +4) sets `FREN`'s `strings_offset` to `strings_size + delta
= 12`, not `strings_offset + delta = 14` as the claim requires: line 221 of
`strg.py` reads `strings_size` where `strings_offset` is meant. -/
theorem string_table_replaced_offset_bug :
    ((strgTwoLang.with_string_table_replaced tagENGL stEnglBig).bind
      (fun s => (s.language_tables[1]?).map STRGLanguageTable.strings_offset)) = some 12 ∧
    (strgTwoLang.language_tables[1]?).map STRGLanguageTable.strings_offset = some 10 ∧
    (stEnglBig.packed_size : Int) - (stEngl.packed_size : Int) = 4 := by decide

/-- C3 (counterexample): for the PAK holding a single 1-byte resource,
`packed_size` reports 65 bytes while `packed()` emits 96 bytes, because
`packed_size` sums the resources' unpadded sizes while `packed()` pads each
resource's encoding to 32 bytes. -/
theorem pak_packed_size_mismatch :
    pakOneByte.packed_size = 65 ∧ pakOneByte.packed.length = 96 ∧
    pakOneByte.packed_size ≠ pakOneByte.packed.length := by decide

/-- C3 (amended): `packed_size` equals the length of `packed()` for
`NamedResourceTable`, `ResourceTable`, `UnimplementedResource`, `STRG` and all
of STRG's sub-tables; for `PAK` it holds exactly when every resource's encoded
size is already a multiple of 32, since `PAK.packed()` pads each resource's
encoding to 32 bytes while `PAK.packed_size` sums the unpadded sizes. -/
theorem packed_size_matches_encoded_length :
    (∀ t : NamedResourceTable, t.packed_size = t.packed.length) ∧
    (∀ t : ResourceTable, t.packed_size = t.packed.length) ∧
    (∀ u : UnimplementedResource, u.packed_size = u.packed.length) ∧
    (∀ t : STRGLanguageTable, t.packed_size = t.packed.length) ∧
    (∀ e : STRGNameEntry, e.packed_size = e.packed.length) ∧
    (∀ nt : STRGNameTable, nt.packed_size = nt.packed.length) ∧
    (∀ st : STRGStringTable, st.packed_size = st.packed.length) ∧
    (∀ s : STRG, s.packed_size = s.packed.length) ∧
    (∀ p : PAK, p.packed_size = p.packed.length ↔
      ∀ r ∈ p.resources, r.packed_size % 32 = 0) := by
  refine ⟨fun t => rfl, fun t => rfl, fun u => rfl, fun t => rfl, fun e => rfl,
    fun nt => rfl, fun st => rfl, strg_packed_size_eq, fun p => ?_⟩
  rw [pak_packed_length]
  unfold PAK.packed_size
  have hmap : p.resources.map (fun r => align32 r.packed.length)
      = (p.resources.map Resource.packed_size).map align32 := by
    rw [List.map_map]
    exact List.map_congr_left
      (fun r _ => by simp only [Function.comp_apply, resource_packed_size_eq])
  rw [hmap]
  constructor
  · intro h
    have hsum : ((p.resources.map Resource.packed_size).map align32).sum
        = (p.resources.map Resource.packed_size).sum := by omega
    intro r hr
    exact (sum_align32_eq_iff _).mp hsum r.packed_size
      (List.mem_map_of_mem _ hr)
  · intro h
    have hsum : ((p.resources.map Resource.packed_size).map align32).sum
        = (p.resources.map Resource.packed_size).sum := by
      refine (sum_align32_eq_iff _).mpr (fun n hn => ?_)
      obtain ⟨r, hr, rfl⟩ := List.mem_map.mp hn
      exact h r hr
    omega

/-- Witness for the amended C3 at concrete values: the `mpr` direction of the
PAK biconditional is instantiated at `pakSTRG`, whose single STRG resource
encodes to 96 bytes (a 32-byte multiple), and the STRG conjunct is evaluated
at `strgTwoLang`. -/
theorem packed_size_matches_encoded_length_witness :
    pakSTRG.packed_size = pakSTRG.packed.length ∧
    strgTwoLang.packed_size = strgTwoLang.packed.length :=
  ⟨(packed_size_matches_encoded_length.2.2.2.2.2.2.2.2 pakSTRG).mpr (by decide),
   packed_size_matches_encoded_length.2.2.2.2.2.2.2.1 strgTwoLang⟩

/-- C5 (counterexample): in the PAK holding a single 1-byte resource the
padding between the resource directory and the payload region spans bytes
36..63 of the encoding, and byte 36 is `0x00`, not the claimed `0xFF` filler:
`PAK.packed()` emits that padding as `b"\x00" * padding`. -/
theorem pak_directory_padding_not_ff :
    pakOneByte.packed_content_before_resources_size = 36 ∧
    pakOneByte.packed_padding_before_resources_size = 28 ∧
    pakOneByte.packed[36]? = some 0 ∧ pakOneByte.packed[36]? ≠ some 255 := by decide

/-- C5 (amended): every byte of the padding emitted between the resource
directory and the resource payload region has value `0x00`, while the padding
appended after each individually 32-byte-aligned resource encoding has filler
value `0xFF`. -/
theorem pak_padding_filler_values :
    (∀ (p : PAK) (k : Nat),
      p.packed_content_before_resources_size ≤ k →
      k < p.packed_content_before_resources_size + p.packed_padding_before_resources_size →
      p.packed[k]? = some 0) ∧
    (∀ (bs : List Nat) (k : Nat),
      bs.length ≤ k → k < (aligned_to_32_bytes bs).length →
      (aligned_to_32_bytes bs)[k]? = some 255) := by
  constructor
  · intro p k h1 h2
    rw [PAK.packed_eq, List.getElem?_append]
    rw [if_neg (by rw [PAK.headerBytes_length]; omega)]
    rw [List.getElem?_append]
    rw [if_pos (by rw [PAK.headerBytes_length, List.length_replicate]; omega)]
    rw [List.getElem?_replicate, if_pos (by rw [PAK.headerBytes_length]; omega)]
  · intro bs k h1 h2
    rw [aligned_to_32_bytes_length] at h2
    unfold aligned_to_32_bytes
    rw [List.getElem?_append, if_neg (by omega)]
    rw [List.getElem?_replicate, if_pos (by unfold align32 at h2; omega)]

/-- Witness for the amended C5: byte 36 of `pakOneByte.packed` (inside the
directory padding, which spans 36..63) is `0x00`, and byte 1 of the 32-byte
alignment of a 1-byte payload is `0xFF`. -/
theorem pak_padding_filler_values_witness :
    pakOneByte.packed[36]? = some 0 ∧ (aligned_to_32_bytes [66])[1]? = some 255 :=
  ⟨pak_padding_filler_values.1 pakOneByte 36 (by decide) (by decide),
   pak_padding_filler_values.2 [66] 1 (by decide) (by decide)⟩

/-- C10: inserting at index 0 into a PAK with zero resources fails
(`resource_tables[-1]` raises `IndexError` on the empty tuple when computing
the new entry's offset), and therefore `with_resource_appended` fails too. -/
theorem insert_into_empty_pak_fails (p : PAK) (asset_ID : Int) (r : Resource)
    (hc : p.resource_count = 0) (ht : p.resource_tables = []) :
    p.with_resource_inserted 0 asset_ID r = none ∧
    p.with_resource_appended asset_ID r = none := by
  unfold PAK.with_resource_appended PAK.with_resource_inserted
  rw [hc, ht]
  simp

/-- Witness for C10 at the concrete empty PAK. -/
theorem insert_into_empty_pak_fails_witness :
    pakEmpty.with_resource_inserted 0 5 (Resource.strg strgOne) = none ∧
    pakEmpty.with_resource_appended 5 (Resource.strg strgOne) = none :=
  insert_into_empty_pak_fails pakEmpty 5 (Resource.strg strgOne) rfl rfl

theorem getElem?_insert_at {α : Type} (l : List α) (x : α) (i : Nat) (h : i ≤ l.length) :
    (l.take i ++ x :: l.drop i)[i]? = some x := by
  have ht : (l.take i).length = i := by rw [List.length_take]; omega
  rw [List.getElem?_append, ht, if_neg (by omega), Nat.sub_self]
  simp

theorem take_insert_at {α : Type} (l : List α) (x : α) (rest : List α) (i : Nat)
    (h : i ≤ l.length) : (l.take i ++ x :: rest).take i = l.take i := by
  exact List.take_left' (by rw [List.length_take]; omega)

theorem drop_insert_at {α : Type} (l : List α) (x : α) (rest : List α) (i : Nat)
    (h : i ≤ l.length) : (l.take i ++ x :: rest).drop (i + 1) = rest := by
  have : l.take i ++ x :: rest = (l.take i ++ [x]) ++ rest := by
    simp [List.append_assoc]
  rw [this]
  exact List.drop_left' (by rw [List.length_append, List.length_take]; simp; omega)

/-- Removing index `i` from the container produced by a successful
`with_resource_inserted` at `i` restores every field: the shifted tails are
shifted back by the same `packed_size` and the inserted pair is dropped. -/
theorem remove_after_insert_form (p : PAK) (i : Nat) (asset_ID : Int) (r : Resource)
    (tag : List Nat) (off : Int)
    (hle : i ≤ p.resource_tables.length)
    (hlen : p.resources.length = p.resource_tables.length) :
    PAK.with_resource_removed
      { p with
        resource_count := p.resource_count + 1,
        resource_tables := p.resource_tables.take i ++
          (⟨false, tag, asset_ID, (r.packed_size : Int), off⟩ : ResourceTable) ::
          (p.resource_tables.drop i).map
            (fun t => { t with offset := t.offset + (r.packed_size : Int) }),
        resources := p.resources.take i ++ r :: p.resources.drop i } i = some p := by
  unfold PAK.with_resource_removed
  have hri : (p.resources.take i ++ r :: p.resources.drop i)[i]? = some r :=
    getElem?_insert_at _ _ _ (by omega)
  simp only [hri, Option.map_some']
  have hA : p.resource_count + 1 - 1 = p.resource_count := by ring
  have hB : ((p.resource_tables.take i ++
      (⟨false, tag, asset_ID, (r.packed_size : Int), off⟩ : ResourceTable) ::
      (p.resource_tables.drop i).map
        (fun t => { t with offset := t.offset + (r.packed_size : Int) })).take i)
      = p.resource_tables.take i := take_insert_at _ _ _ _ hle
  have hC : ((p.resource_tables.take i ++
      (⟨false, tag, asset_ID, (r.packed_size : Int), off⟩ : ResourceTable) ::
      (p.resource_tables.drop i).map
        (fun t => { t with offset := t.offset + (r.packed_size : Int) })).drop (i + 1))
      = (p.resource_tables.drop i).map
        (fun t => { t with offset := t.offset + (r.packed_size : Int) }) :=
    drop_insert_at _ _ _ _ hle
  have hD : ((p.resource_tables.drop i).map
      (fun t => { t with offset := t.offset + (r.packed_size : Int) })).map
        (fun t => { t with offset := t.offset - (r.packed_size : Int) })
      = p.resource_tables.drop i := by
    rw [List.map_map]
    refine Eq.trans (List.map_congr_left fun t _ => ?_) (List.map_id _)
    show ({ t with offset := t.offset + (r.packed_size : Int) - (r.packed_size : Int) } :
      ResourceTable) = ResourceTable.mk t.compressed t.asset_type t.asset_ID t.size t.offset
    rw [add_sub_cancel_right]
  have hE : ((p.resources.take i ++ r :: p.resources.drop i).take i) = p.resources.take i :=
    take_insert_at _ _ _ _ (by omega)
  have hF : ((p.resources.take i ++ r :: p.resources.drop i).drop (i + 1))
      = p.resources.drop i := drop_insert_at _ _ _ _ (by omega)
  rw [hB, hC, hD, hE, hF, hA, List.take_append_drop, List.take_append_drop]

/-- C6 (amended): for every PAK whose stored count and parallel lists agree,
whenever `with_resource_inserted(i, id, r)` succeeds,
`with_resource_removed(i)` on the result returns the original container
exactly; the insertion itself fails on a PAK with zero resources (its offset
computation reads the last table entry), in which case the composite returns
nothing rather than the original container. -/
theorem insert_then_remove_inverse (p : PAK) (i : Nat) (asset_ID : Int) (r : Resource)
    (q : PAK)
    (hcount : p.resource_count = (p.resource_tables.length : Int))
    (hlen : p.resources.length = p.resource_tables.length)
    (hins : p.with_resource_inserted i asset_ID r = some q) :
    q.with_resource_removed i = some p := by
  unfold PAK.with_resource_inserted at hins
  split at hins
  case h_1 newOffset tag hoff htag =>
    obtain rfl := (Option.some.inj hins).symm
    have hle : i ≤ p.resource_tables.length := by
      by_cases hi : ((i : Nat) : Int) = p.resource_count
      · have h2 : ((i : Nat) : Int) = (p.resource_tables.length : Int) := by
          rw [hi, hcount]
        have h3 : i = p.resource_tables.length := by exact_mod_cast h2
        omega
      · rw [if_neg hi] at hoff
        cases hT : p.resource_tables[i]? with
        | none => rw [hT] at hoff; exact absurd hoff (by simp)
        | some t2 =>
          have h4 : i < p.resource_tables.length := by
            by_contra hge
            rw [List.getElem?_eq_none (by omega)] at hT
            exact Option.noConfusion hT
          omega
    exact remove_after_insert_form p i asset_ID r tag newOffset hle hlen
  case h_2 => exact Option.noConfusion hins

/-- C6 (counterexample): on the empty PAK with `i = 0`, inserting and then
removing does not return the original container — the insert itself fails
(`resource_tables[-1]` on an empty tuple), so the composite yields nothing
instead of `pakEmpty`. -/
theorem insert_remove_not_inverse_on_empty :
    ((pakEmpty.with_resource_inserted 0 5 (Resource.strg strgOne)).bind
      (fun q => q.with_resource_removed 0)) = none ∧
    ((pakEmpty.with_resource_inserted 0 5 (Resource.strg strgOne)).bind
      (fun q => q.with_resource_removed 0)) ≠ some pakEmpty := by decide

/-- The result of inserting `strgOne` (with identifier 5) at index 0 of
`pakOneByte`. -/
def pakOneByteIns : PAK :=
  ⟨2, 0, 0, 0, [], 2,
    [⟨false, tagSTRG, 5, 64, 64⟩, ⟨false, tagAAAA, 7, 1, 128⟩],
    [.strg strgOne, .unimplemented ⟨[66]⟩]⟩

/-- Witness for the amended C6 at concrete values: inserting `strgOne` at
index 0 of `pakOneByte` succeeds, and removing index 0 restores `pakOneByte`. -/
theorem insert_then_remove_inverse_witness :
    pakOneByte.with_resource_inserted 0 5 (Resource.strg strgOne) = some pakOneByteIns ∧
    pakOneByteIns.with_resource_removed 0 = some pakOneByte :=
  ⟨by decide,
   insert_then_remove_inverse pakOneByte 0 5 (Resource.strg strgOne) pakOneByteIns
     (by decide) (by decide) (by decide)⟩

theorem sum_map_const {α : Type} (l : List α) (c : Nat) :
    (l.map (fun _ => c)).sum = c * l.length := by
  induction l with
  | nil => simp
  | cons x t ih => simp [ih]; ring

theorem zip_map_enc_len : ∀ (l1 : List Int) (l2 : List (List Nat)),
    l1.length = l2.length →
    (l1.zip l2).map (fun pr => (utf16beBytes pr.2).length + 2)
      = l2.map (fun s => (utf16beBytes s).length + 2)
  | [], [], _ => rfl
  | a :: t1, b :: t2, h => by
    simp only [List.zip_cons_cons, List.map_cons]
    rw [zip_map_enc_len t1 t2 (by simpa using h)]
  | [], _ :: _, h => by simp at h
  | _ :: _, [], h => by simp at h

/-- Encoded length of a string table with parallel lists: four bytes per
offset plus, for each string, its UTF-16 encoding and the 2-byte sentinel
(the ascending-offset emission order permutes the strings, leaving the total
unchanged). -/
theorem STRGStringTable.packed_length_formula (t : STRGStringTable)
    (hpar : t.offsets.length = t.strings.length) :
    t.packed.length = 4 * t.offsets.length
      + (t.strings.map (fun s => (utf16beBytes s).length + 2)).sum := by
  unfold STRGStringTable.packed
  rw [List.length_append]
  congr 1
  · rw [List.length_flatten, List.map_map]
    have h1 : t.offsets.map (List.length ∘ u32Bytes) = t.offsets.map (fun _ => 4) :=
      List.map_congr_left (fun o _ => u32Bytes_length o)
    rw [h1, sum_map_const]
  · rw [List.length_flatten, List.map_map]
    have hperm := ((sortPairs_perm (t.offsets.zip t.strings)).map
      (List.length ∘ fun pr => utf16beBytes pr.2 ++ [0, 0])).sum_eq
    rw [hperm]
    have h2 : (t.offsets.zip t.strings).map
        (List.length ∘ fun pr => utf16beBytes pr.2 ++ [0, 0])
        = (t.offsets.zip t.strings).map (fun pr => (utf16beBytes pr.2).length + 2) :=
      List.map_congr_left (fun pr _ => by
        simp [Function.comp, List.length_append])
    rw [h2, zip_map_enc_len t.offsets t.strings hpar]

/-- C8: replacing the string at an in-range index of a string table with
index-parallel offset/string lists leaves the stored offsets at or before the
index unchanged, shifts each later stored offset by exactly the encoded-size
delta `b - a`, and changes the table's total encoded size by exactly `b - a`. -/
theorem with_string_replaced_accounting (t : STRGStringTable) (i : Nat)
    (new_string : List Nat) (t' : STRGStringTable)
    (hpar : t.offsets.length = t.strings.length)
    (hrep : t.with_string_replaced i new_string = some t') :
    (∀ j, j ≤ i → t'.offsets[j]? = t.offsets[j]?) ∧
    (∀ j, i < j → t'.offsets[j]? = (t.offsets[j]?).map
      (fun o => o + (((utf16beBytes new_string).length : Int)
        - ((utf16beBytes (t.strings.getD i [])).length : Int)))) ∧
    ((t'.packed_size : Int) = (t.packed_size : Int)
      + (((utf16beBytes new_string).length : Int)
        - ((utf16beBytes (t.strings.getD i [])).length : Int))) := by
  unfold STRGStringTable.with_string_replaced at hrep
  cases hget : t.strings[i]? with
  | none => rw [hget] at hrep; exact Option.noConfusion hrep
  | some old =>
    rw [hget] at hrep
    obtain rfl := (Option.some.inj hrep).symm
    have hgetD : t.strings.getD i [] = old := by
      rw [List.getD_eq_getElem?_getD, hget]; rfl
    have hi : i < t.strings.length := by
      by_contra hge
      rw [List.getElem?_eq_none (by omega)] at hget
      exact Option.noConfusion hget
    have hiO : i < t.offsets.length := by omega
    rw [hgetD]
    refine ⟨?_, ?_, ?_⟩
    · intro j hj
      show (t.offsets.take (i + 1) ++ (t.offsets.drop (i + 1)).map _)[j]? = t.offsets[j]?
      rw [List.getElem?_append, List.length_take, if_pos (by omega),
        List.getElem?_take, if_pos (by omega)]
    · intro j hj
      show (t.offsets.take (i + 1) ++ (t.offsets.drop (i + 1)).map
        (fun o => o + (((utf16beBytes new_string).length : Int)
          - ((utf16beBytes old).length : Int))))[j]? = _
      rw [List.getElem?_append, List.length_take, if_neg (by omega),
        List.getElem?_map, List.getElem?_drop,
        show i + 1 + (j - min (i + 1) t.offsets.length) = j by omega]
    · show ((⟨t.count,
          t.offsets.take (i + 1) ++ (t.offsets.drop (i + 1)).map
            (fun o => o + (((utf16beBytes new_string).length : Int)
              - ((utf16beBytes old).length : Int))),
          t.strings.take i ++ new_string :: t.strings.drop (i + 1)⟩ :
            STRGStringTable).packed_size : Int) = _
      have hO' : (t.offsets.take (i + 1) ++ (t.offsets.drop (i + 1)).map
          (fun o => o + (((utf16beBytes new_string).length : Int)
            - ((utf16beBytes old).length : Int)))).length = t.offsets.length := by
        simp only [List.length_append, List.length_take, List.length_map,
          List.length_drop]
        omega
      have hS' : (t.strings.take i ++ new_string :: t.strings.drop (i + 1)).length
          = t.strings.length := by
        simp only [List.length_append, List.length_take, List.length_cons,
          List.length_drop]
        omega
      have hform := STRGStringTable.packed_length_formula t hpar
      have hform' := STRGStringTable.packed_length_formula
        ⟨t.count,
          t.offsets.take (i + 1) ++ (t.offsets.drop (i + 1)).map
            (fun o => o + (((utf16beBytes new_string).length : Int)
              - ((utf16beBytes old).length : Int))),
          t.strings.take i ++ new_string :: t.strings.drop (i + 1)⟩
        (by show _ = _; rw [hO', hS']; exact hpar)
      have hold : t.strings[i] = old := by
        have h5 := List.getElem?_eq_getElem hi
        rw [hget] at h5
        exact (Option.some.inj h5).symm
      have hsplit : t.strings = t.strings.take i ++ old :: t.strings.drop (i + 1) := by
        conv_lhs => rw [← List.take_append_drop i t.strings]
        rw [List.drop_eq_getElem_cons hi, hold]
      have hsum : (t.strings.map (fun s => (utf16beBytes s).length + 2)).sum
          = ((t.strings.take i).map (fun s => (utf16beBytes s).length + 2)).sum
            + (((utf16beBytes old).length + 2)
              + ((t.strings.drop (i + 1)).map
                  (fun s => (utf16beBytes s).length + 2)).sum) := by
        conv_lhs => rw [hsplit]
        rw [List.map_append, List.sum_append, List.map_cons, List.sum_cons]
      have hsum' : ((t.strings.take i ++ new_string :: t.strings.drop (i + 1)).map
          (fun s => (utf16beBytes s).length + 2)).sum
          = ((t.strings.take i).map (fun s => (utf16beBytes s).length + 2)).sum
            + (((utf16beBytes new_string).length + 2)
              + ((t.strings.drop (i + 1)).map
                  (fun s => (utf16beBytes s).length + 2)).sum) := by
        rw [List.map_append, List.sum_append, List.map_cons, List.sum_cons]
      show ((STRGStringTable.packed _).length : Int) = ((STRGStringTable.packed t).length : Int) + _
      rw [hform, hform']
      dsimp only
      rw [hO', hsum, hsum']
      push_cast
      ring

/-- Witness for C8 at concrete values: replacing string 0 (`AB`, encoded size
4) of `stEngl` with `ABXY` (encoded size 8) yields `stEnglBig`; stored offset
0 is unchanged and the total encoded size grows by exactly 4. -/
theorem with_string_replaced_accounting_witness :
    stEngl.with_string_replaced 0 [65, 66, 88, 89] = some stEnglBig ∧
    stEnglBig.offsets[0]? = stEngl.offsets[0]? ∧
    ((stEnglBig.packed_size : Int) = (stEngl.packed_size : Int) + 4) := by
  refine ⟨by decide, ?_, ?_⟩
  · exact (with_string_replaced_accounting stEngl 0 [65, 66, 88, 89] stEnglBig
      (by decide) (by decide)).1 0 (by omega)
  · have h := (with_string_replaced_accounting stEngl 0 [65, 66, 88, 89] stEnglBig
      (by decide) (by decide)).2.2
    exact h.trans (by decide)

/-- C9: the codec dispatch used by PAK decoding (`decodeResources` hands every
entry's payload slice to `decodeResource (assetClassFor t)`), in priority
order: the reserved identifier `0x95B61279` selects the scan-tree codec
regardless of the type tag; otherwise a tag present in the static
tag-to-codec table selects that codec; otherwise the opaque pass-through
codec is used, which stores the payload bytes unchanged and re-emits them
exactly. -/
theorem dispatch_priority (t : ResourceTable) (d : List Nat) :
    (t.asset_ID = 0x95B61279 → assetClassFor t = AssetClass.scanTree) ∧
    (t.asset_ID ≠ 0x95B61279 → ∀ c, asset_classes.lookup t.asset_type = some c →
      assetClassFor t = c) ∧
    (t.asset_ID ≠ 0x95B61279 → asset_classes.lookup t.asset_type = none →
      assetClassFor t = AssetClass.unimplemented) ∧
    decodeResource AssetClass.unimplemented d
      = some (Resource.unimplemented (UnimplementedResource.from_packed d)) ∧
    (Resource.unimplemented (UnimplementedResource.from_packed d)).packed = d := by
  refine ⟨fun h => ?_, fun h c hc => ?_, fun h hn => ?_, rfl, rfl⟩
  · unfold assetClassFor; rw [if_pos h]
  · unfold assetClassFor; rw [if_neg h, hc]; rfl
  · unfold assetClassFor; rw [if_neg h, hn]; rfl

/-- Witness for C9: the reserved identifier overrides a table tag (`DUMB`),
the `STRG` tag selects the STRG codec, and an unknown tag falls through to
the pass-through codec. -/
theorem dispatch_priority_witness :
    assetClassFor ⟨false, tagDUMB, 0x95B61279, 0, 0⟩ = AssetClass.scanTree ∧
    assetClassFor ⟨false, tagSTRG, 3, 0, 0⟩ = AssetClass.strg ∧
    assetClassFor ⟨false, tagAAAA, 7, 0, 0⟩ = AssetClass.unimplemented :=
  ⟨(dispatch_priority ⟨false, tagDUMB, 0x95B61279, 0, 0⟩ []).1 rfl,
   (dispatch_priority ⟨false, tagSTRG, 3, 0, 0⟩ []).2.1 (by decide) AssetClass.strg
     (by decide),
   (dispatch_priority ⟨false, tagAAAA, 7, 0, 0⟩ []).2.2.1 (by decide) (by decide)⟩

/-- The offset invariant stated by the spec: every resource directory entry's
offset equals the fixed header region size (content before the resources plus
the alignment padding) plus the sum of the 32-byte-aligned encoded sizes of
the resources before it. -/
def specOffsetCascade (p : PAK) : Prop :=
  ∀ j, (h : j < p.resource_tables.length) →
    (p.resource_tables[j]).offset
      = ((p.packed_content_before_resources_size
          + p.packed_padding_before_resources_size : Nat) : Int)
        + (((p.resources.take j).map (fun r => align32 r.packed_size)).sum : Int)

instance (p : PAK) : Decidable (specOffsetCascade p) := by
  unfold specOffsetCascade; infer_instance

/-- The result of appending `strgOne` with identifier 9 to `pakOneByte`. -/
def pakOneByteApp : PAK :=
  ⟨2, 0, 0, 0, [], 2,
    [⟨false, tagAAAA, 7, 1, 64⟩, ⟨false, tagSTRG, 9, 64, 65⟩],
    [.unimplemented ⟨[66]⟩, .strg strgOne]⟩

/-- C7: `pakOneByte` is decodable from its own conformant encoding and
satisfies the offset-cascade invariant, but appending a 64-byte resource
gives entry 1 the offset `last.offset + last.size = 65` where the invariant
requires 96: the new header region is 64 bytes and resource 0's 1-byte
encoding is padded to 32 bytes, neither of which the edit accounts for. -/
theorem offset_cascade_violated_after_append :
    PAK.from_packed pakOneByte.packed = some pakOneByte ∧
    specOffsetCascade pakOneByte ∧
    pakOneByte.with_resource_appended 9 (Resource.strg strgOne) = some pakOneByteApp ∧
    ¬ specOffsetCascade pakOneByteApp ∧
    (pakOneByteApp.resource_tables[1]?).map ResourceTable.offset = some 65 ∧
    ((pakOneByteApp.packed_content_before_resources_size
      + pakOneByteApp.packed_padding_before_resources_size : Nat) : Int)
      + (((pakOneByteApp.resources.take 1).map
          (fun r => align32 r.packed_size)).sum : Int) = 96 := by
  exact ⟨by decide, by decide, by decide, by decide, by decide, by decide⟩

theorem fix4_eq (s : List Nat) (h : s.length = 4) : fix4 s = s := by
  unfold fix4
  rw [show 4 - s.length = 0 by omega, List.take_of_length_le (by omega)]
  simp

theorem drop_shift (a rest : List Nat) (n k : Nat) (h : a.length = n) :
    (a ++ rest).drop (n + k) = rest.drop k := by
  rw [← h, List.drop_append]

theorem nameEntry_packed_length (e : STRGNameEntry) : e.packed.length = 8 := by
  simp [STRGNameEntry.packed, u32Bytes_length]

theorem nameEntry_roundtrip (e : STRGNameEntry)
    (h1 : u32Range e.offset) (h2 : u32Range e.string_index) :
    STRGNameEntry.from_packed e.packed = some e := by
  unfold STRGNameEntry.from_packed
  rw [if_pos (nameEntry_packed_length e)]
  unfold STRGNameEntry.packed
  rw [List.take_left' (u32Bytes_length _), List.drop_left' (u32Bytes_length _),
    List.take_of_length_le (le_of_eq (u32Bytes_length _)),
    beNat_u32Bytes _ h1.1 h1.2, beNat_u32Bytes _ h2.1 h2.2]

theorem languageTable_packed_length (t : STRGLanguageTable)
    (h4 : t.language_ID.length = 4) : t.packed.length = 12 := by
  simp [STRGLanguageTable.packed, fix4_eq t.language_ID h4, u32Bytes_length,
    List.length_append, h4]

theorem languageTable_roundtrip (t : STRGLanguageTable)
    (h : WFLanguageTable t) : STRGLanguageTable.from_packed t.packed = some t := by
  obtain ⟨h4, hascii, ho, hs⟩ := h
  unfold STRGLanguageTable.from_packed
  unfold STRGLanguageTable.packed
  rw [fix4_eq t.language_ID h4]
  simp only [List.append_assoc]
  have htake : (t.language_ID ++ (u32Bytes t.strings_offset ++ u32Bytes t.strings_size)).take 4
      = t.language_ID := List.take_left' h4
  rw [if_pos ?_]
  · rw [htake, List.drop_left' h4, List.take_left' (u32Bytes_length _),
      show (8 : Nat) = 4 + 4 from rfl, drop_shift _ _ 4 4 h4,
      List.drop_left' (u32Bytes_length _),
      List.take_of_length_le (le_of_eq (u32Bytes_length _)),
      beNat_u32Bytes _ ho.1 ho.2, beNat_u32Bytes _ hs.1 hs.2]
  · constructor
    · rw [List.length_append, List.length_append, h4, u32Bytes_length, u32Bytes_length]
    · rw [htake, List.all_eq_true]
      intro b hb
      simpa using hascii b hb

theorem resourceTable_packed_length (t : ResourceTable)
    (h4 : t.asset_type.length = 4) : t.packed.length = 20 := by
  simp [ResourceTable.packed, fix4_eq t.asset_type h4, u32Bytes_length,
    List.length_append, h4]

theorem resourceTable_roundtrip (t : ResourceTable)
    (h : WFResourceTable t) : ResourceTable.from_packed t.packed = some t := by
  obtain ⟨h4, hbytes, hid, hsz, hoff⟩ := h
  unfold ResourceTable.from_packed
  rw [if_pos (resourceTable_packed_length t h4)]
  unfold ResourceTable.packed
  rw [fix4_eq t.asset_type h4]
  simp only [List.append_assoc]
  rw [List.take_left' (u32Bytes_length _), List.drop_left' (u32Bytes_length _),
    List.take_left' h4,
    show (8 : Nat) = 4 + 4 from rfl, drop_shift _ _ 4 4 (u32Bytes_length _),
    drop_shift _ _ 4 0 h4, List.drop_zero,
    List.take_left' (u32Bytes_length _),
    show (12 : Nat) = 4 + 8 from rfl, drop_shift _ _ 4 8 (u32Bytes_length _),
    show (8 : Nat) = 4 + 4 from rfl, drop_shift _ _ 4 4 h4,
    List.drop_left' (u32Bytes_length _), List.take_left' (u32Bytes_length _),
    show (16 : Nat) = 4 + 12 from rfl, drop_shift _ _ 4 12 (u32Bytes_length _),
    show (12 : Nat) = 4 + 8 from rfl, drop_shift _ _ 4 8 h4,
    show (8 : Nat) = 4 + 4 from rfl, drop_shift _ _ 4 4 (u32Bytes_length _),
    List.drop_left' (u32Bytes_length _),
    List.take_of_length_le (le_of_eq (u32Bytes_length _)),
    beNat_u32Bytes _ hid.1 hid.2, beNat_u32Bytes _ hsz.1 hsz.2,
    beNat_u32Bytes _ hoff.1 hoff.2]
  cases hc : t.compressed with
  | false =>
    have hb : (beNat (u32Bytes (if false = true then (1 : Int) else 0)) != 0) = false := by
      decide
    rw [hb, ← hc]
  | true =>
    have hb : (beNat (u32Bytes (if true = true then (1 : Int) else 0)) != 0) = true := by
      decide
    rw [hb, ← hc]

theorem namedTable_packed_length (t : NamedResourceTable)
    (h4 : t.asset_type.length = 4) : t.packed.length = 12 + t.name.length := by
  simp only [NamedResourceTable.packed, fix4_eq t.asset_type h4, List.length_append,
    u32Bytes_length, h4]

theorem namedTable_roundtrip (t : NamedResourceTable)
    (h : WFNamedTable t) (rest : List Nat) :
    NamedResourceTable.from_packed (t.packed ++ rest) = some t := by
  obtain ⟨h4, hbytes, hid, hnl, hnr, hnb⟩ := h
  unfold NamedResourceTable.from_packed
  unfold NamedResourceTable.packed
  rw [fix4_eq t.asset_type h4]
  simp only [List.append_assoc]
  rw [if_neg ?_]
  · rw [List.take_left' h4,
      List.drop_left' h4, List.take_left' (u32Bytes_length _),
      show (8 : Nat) = 4 + 4 from rfl, drop_shift _ _ 4 4 h4,
      List.drop_left' (u32Bytes_length _), List.take_left' (u32Bytes_length _),
      show (12 : Nat) = 4 + 8 from rfl, drop_shift _ _ 4 8 h4,
      show (8 : Nat) = 4 + 4 from rfl, drop_shift _ _ 4 4 (u32Bytes_length _),
      List.drop_left' (u32Bytes_length _)]
    rw [beNat_u32Bytes _ hid.1 hid.2]
    have hbn : beNat (u32Bytes t.name_length) = t.name.length := by
      have hc := beNat_u32Bytes t.name_length hnr.1 hnr.2
      omega
    rw [hbn, List.take_left, ← hnl]
  · simp only [List.length_append, h4, u32Bytes_length, not_lt]
    omega

theorem parseNamedTables_spec (ts : List NamedResourceTable) (buf : List Nat)
    (pos : Nat) (rest : List Nat) (hwf : ∀ t ∈ ts, WFNamedTable t)
    (hbuf : buf.drop pos = (ts.map NamedResourceTable.packed).flatten ++ rest) :
    parseNamedTables ts.length buf pos
      = some (ts, pos + (ts.map (fun t => t.packed.length)).sum) := by
  induction ts generalizing pos with
  | nil => simp [parseNamedTables]
  | cons t ts ih =>
    have hwt := hwf t (List.mem_cons_self _ _)
    have hform : buf.drop pos = t.packed ++ ((ts.map NamedResourceTable.packed).flatten ++ rest) := by
      rw [hbuf]
      simp [List.flatten_cons, List.append_assoc]
    simp only [List.length_cons]
    unfold parseNamedTables
    rw [hform, namedTable_roundtrip t hwt]
    dsimp only
    have hpos : pos + 12 + t.name_length.toNat = pos + t.packed.length := by
      have h12 := namedTable_packed_length t hwt.1
      have hnl := hwt.2.2.2.1
      omega
    have hnext : buf.drop (pos + t.packed.length)
        = (ts.map NamedResourceTable.packed).flatten ++ rest := by
      rw [← List.drop_drop, hform, List.drop_left]
    rw [hpos, ih _ (fun x hx => hwf x (List.mem_cons_of_mem _ hx)) hnext]
    simp only [Option.map_some', List.map_cons, List.sum_cons]
    congr 2
    omega

theorem parseResourceTables_spec (ts : List ResourceTable) (buf : List Nat)
    (pos : Nat) (rest : List Nat) (hwf : ∀ t ∈ ts, WFResourceTable t)
    (hbuf : buf.drop pos = (ts.map ResourceTable.packed).flatten ++ rest) :
    parseResourceTables ts.length buf pos = some (ts, pos + 20 * ts.length) := by
  induction ts generalizing pos with
  | nil => simp [parseResourceTables]
  | cons t ts ih =>
    have hwt := hwf t (List.mem_cons_self _ _)
    have h20 : t.packed.length = 20 := resourceTable_packed_length t hwt.1
    have hform : buf.drop pos = t.packed ++ ((ts.map ResourceTable.packed).flatten ++ rest) := by
      rw [hbuf]
      simp [List.flatten_cons, List.append_assoc]
    simp only [List.length_cons]
    unfold parseResourceTables
    rw [hform, List.take_left' h20, resourceTable_roundtrip t hwt]
    dsimp only
    have hnext : buf.drop (pos + 20)
        = (ts.map ResourceTable.packed).flatten ++ rest := by
      rw [← List.drop_drop, hform, List.drop_left' h20]
    rw [ih _ (fun x hx => hwf x (List.mem_cons_of_mem _ hx)) hnext]
    simp only [Option.map_some', List.map_cons, List.sum_cons]
    congr 2
    omega

theorem parseLanguageTables_spec (ts : List STRGLanguageTable) (buf : List Nat)
    (pos : Nat) (rest : List Nat) (hwf : ∀ t ∈ ts, WFLanguageTable t)
    (hbuf : buf.drop pos = (ts.map STRGLanguageTable.packed).flatten ++ rest) :
    parseLanguageTables ts.length buf pos = some (ts, pos + 12 * ts.length) := by
  induction ts generalizing pos with
  | nil => simp [parseLanguageTables]
  | cons t ts ih =>
    have hwt := hwf t (List.mem_cons_self _ _)
    have h12 : t.packed.length = 12 := languageTable_packed_length t hwt.1
    have hform : buf.drop pos
        = t.packed ++ ((ts.map STRGLanguageTable.packed).flatten ++ rest) := by
      rw [hbuf]
      simp [List.flatten_cons, List.append_assoc]
    simp only [List.length_cons]
    unfold parseLanguageTables
    rw [hform, List.take_left' h12, languageTable_roundtrip t hwt]
    dsimp only
    have hnext : buf.drop (pos + 12)
        = (ts.map STRGLanguageTable.packed).flatten ++ rest := by
      rw [← List.drop_drop, hform, List.drop_left' h12]
    rw [ih _ (fun x hx => hwf x (List.mem_cons_of_mem _ hx)) hnext]
    simp only [Option.map_some', List.map_cons, List.sum_cons]
    congr 2
    omega

theorem parseNameEntries_spec (es : List STRGNameEntry) (buf : List Nat)
    (pos : Nat) (rest : List Nat)
    (hwf : ∀ e ∈ es, u32Range e.offset ∧ u32Range e.string_index)
    (hbuf : buf.drop pos = (es.map STRGNameEntry.packed).flatten ++ rest) :
    parseNameEntries es.length buf pos = some (es, pos + 8 * es.length) := by
  induction es generalizing pos with
  | nil => simp [parseNameEntries]
  | cons e es ih =>
    have hwe := hwf e (List.mem_cons_self _ _)
    have h8 : e.packed.length = 8 := nameEntry_packed_length e
    have hform : buf.drop pos
        = e.packed ++ ((es.map STRGNameEntry.packed).flatten ++ rest) := by
      rw [hbuf]
      simp [List.flatten_cons, List.append_assoc]
    simp only [List.length_cons]
    unfold parseNameEntries
    rw [hform, List.take_left' h8, nameEntry_roundtrip e hwe.1 hwe.2]
    dsimp only
    have hnext : buf.drop (pos + 8)
        = (es.map STRGNameEntry.packed).flatten ++ rest := by
      rw [← List.drop_drop, hform, List.drop_left' h8]
    rw [ih _ (fun x hx => hwf x (List.mem_cons_of_mem _ hx)) hnext]
    simp only [Option.map_some', List.map_cons, List.sum_cons]
    congr 2
    omega

theorem readU32List?_spec (os : List Int) (rest : List Nat)
    (hr : ∀ o ∈ os, u32Range o) :
    readU32List? os.length ((os.map u32Bytes).flatten ++ rest) = some os := by
  induction os with
  | nil => rfl
  | cons o os ih =>
    have ho := hr o (List.mem_cons_self _ _)
    simp only [List.length_cons, List.map_cons, List.flatten_cons, List.append_assoc]
    unfold readU32List?
    rw [readU32?_append o _ ho.1 ho.2,
      List.drop_left' (u32Bytes_length o),
      ih (fun x hx => hr x (List.mem_cons_of_mem _ hx))]

theorem zip_map_emit : ∀ (l1 : List Int) (l2 : List (List Nat)),
    l1.length = l2.length →
    (l1.zip l2).map (fun pr => utf16beBytes pr.2 ++ [0, 0])
      = l2.map (fun s => utf16beBytes s ++ [0, 0])
  | [], [], _ => rfl
  | a :: t1, b :: t2, h => by
    simp only [List.zip_cons_cons, List.map_cons]
    rw [zip_map_emit t1 t2 (by simpa using h)]
  | [], _ :: _, h => by simp at h
  | _ :: _, [], h => by simp at h


theorem map_toNat_cast (pn : List Nat) :
    (pn.map Int.ofNat).map Int.toNat = pn := by
  induction pn with
  | nil => rfl
  | cons x t ih =>
    simp only [List.map_cons, ih]
    congr 1

theorem decodeNames_spec (buf : List Nat) (rest : List Nat) :
    ∀ (es : List STRGNameEntry) (nms : List (List Nat)) (base : Nat),
    (∀ nm ∈ nms, ∀ b ∈ nm, b < 128 ∧ b ≠ 0) →
    (es.map STRGNameEntry.offset).map Int.toNat
      = positionsFrom base (nms.map (fun nm => nm.length + 1)) →
    buf.drop (8 + base) = (nms.map (fun nm => nm ++ [0])).flatten ++ rest →
    decodeNames buf es = some nms := by
  intro es
  induction es with
  | nil =>
    intro nms base hn hoff hbuf
    cases nms with
    | nil => rfl
    | cons nm nms => simp [positionsFrom] at hoff
  | cons e es ih =>
    intro nms base hn hoff hbuf
    cases nms with
    | nil => simp [positionsFrom] at hoff
    | cons nm nms =>
      simp only [List.map_cons, positionsFrom] at hoff
      injection hoff with h1 h2
      have hstart : buf.drop (8 + base)
          = nm ++ (0 :: ((nms.map (fun nm => nm ++ [0])).flatten ++ rest)) := by
        rw [hbuf]
        simp [List.flatten_cons, List.append_assoc]
      unfold decodeNames
      have hdn : decodeNameAt buf e = some nm := by
        unfold decodeNameAt
        rw [show 8 + e.offset.toNat = 8 + base from by rw [h1], hstart,
          firstZeroIdx_append nm _ (fun b hb => (hn nm (List.mem_cons_self _ _) b hb).2)]
        dsimp only
        rw [List.take_left, if_pos ?_]
        rw [List.all_eq_true]
        intro b hb
        simpa using (hn nm (List.mem_cons_self _ _) b hb).1
      rw [hdn]
      rw [ih nms (base + (nm.length + 1))
        (fun x hx => hn x (List.mem_cons_of_mem _ hx)) h2 ?_]
      · rw [show 8 + (base + (nm.length + 1)) = (8 + base) + (nm.length + 1) by omega,
          ← List.drop_drop, hstart]
        have he : nm ++ (0 :: ((nms.map (fun nm => nm ++ [0])).flatten ++ rest))
            = (nm ++ [0]) ++ ((nms.map (fun nm => nm ++ [0])).flatten ++ rest) := by
          simp [List.append_assoc]
        rw [he, List.drop_left' (by simp)]

theorem decodeStringsAt_spec (buf : List Nat) (rest : List Nat) :
    ∀ (os : List Int) (ss : List (List Nat)) (base : Nat),
    (∀ s ∈ ss, strOK s) →
    os.map Int.toNat = positionsFrom base (ss.map (fun s => (utf16beBytes s).length + 2)) →
    buf.drop base = (ss.map (fun s => utf16beBytes s ++ [0, 0])).flatten ++ rest →
    decodeStringsAt buf os = some ss := by
  intro os
  induction os with
  | nil =>
    intro ss base hs hoff hbuf
    cases ss with
    | nil => rfl
    | cons s ss => simp [positionsFrom] at hoff
  | cons o os ih =>
    intro ss base hs hoff hbuf
    cases ss with
    | nil => simp [positionsFrom] at hoff
    | cons s ss =>
      simp only [List.map_cons, positionsFrom] at hoff
      injection hoff with h1 h2
      have hstart : buf.drop base
          = utf16beBytes s
            ++ (0 :: 0 :: ((ss.map (fun s => utf16beBytes s ++ [0, 0])).flatten ++ rest)) := by
        rw [hbuf]
        simp [List.flatten_cons, List.append_assoc]
      unfold decodeStringsAt
      have hok := hs s (List.mem_cons_self _ _)
      have hds : decodeStringAt buf o = some s := by
        unfold decodeStringAt
        rw [h1, hstart, findDoubleZero_extend _ _ hok.2]
        dsimp only
        rw [List.take_left]
        exact utf16beUnits?_utf16beBytes s hok.1
      rw [hds]
      rw [ih ss (base + ((utf16beBytes s).length + 2))
        (fun x hx => hs x (List.mem_cons_of_mem _ hx)) h2 ?_]
      · rw [← List.drop_drop, hstart]
        have he : utf16beBytes s
            ++ (0 :: 0 :: ((ss.map (fun s => utf16beBytes s ++ [0, 0])).flatten ++ rest))
            = (utf16beBytes s ++ [0, 0])
              ++ ((ss.map (fun s => utf16beBytes s ++ [0, 0])).flatten ++ rest) := by
          simp [List.append_assoc]
        rw [he, List.drop_left' (by simp [List.length_append])]

theorem offsets_flatten_length (os : List Int) :
    ((os.map u32Bytes).flatten).length = 4 * os.length := by
  rw [List.length_flatten, List.map_map]
  have h1 : os.map (List.length ∘ u32Bytes) = os.map (fun _ => 4) :=
    List.map_congr_left (fun o _ => u32Bytes_length o)
  rw [h1, sum_map_const]

theorem entries_flatten_length (es : List STRGNameEntry) :
    ((es.map STRGNameEntry.packed).flatten).length = 8 * es.length := by
  rw [List.length_flatten, List.map_map]
  have h1 : es.map (List.length ∘ STRGNameEntry.packed) = es.map (fun _ => 8) :=
    List.map_congr_left (fun e _ => nameEntry_packed_length e)
  rw [h1, sum_map_const]

theorem STRGStringTable.packed_decomp (t : STRGStringTable)
    (hlen : t.strings.length = t.offsets.length)
    (hsorted : sortPairs (t.offsets.zip t.strings) = t.offsets.zip t.strings) :
    t.packed = (t.offsets.map u32Bytes).flatten
      ++ (t.strings.map (fun s => utf16beBytes s ++ [0, 0])).flatten := by
  unfold STRGStringTable.packed
  rw [hsorted, zip_map_emit t.offsets t.strings hlen.symm]

theorem stringTable_roundtrip (t : STRGStringTable)
    (h : WFStringTable t) :
    STRGStringTable.from_packed t.packed t.count = some t := by
  obtain ⟨h1, h2, h3, h4, h5, h6⟩ := h
  have hdecomp := STRGStringTable.packed_decomp t h2 h6
  have hcnt : t.count.toNat = t.offsets.length := by omega
  have hnotneg : ¬ t.count < 0 := by omega
  have hlen : ¬ t.packed.length < 4 * t.count.toNat := by
    rw [hdecomp, List.length_append, offsets_flatten_length, hcnt]
    omega
  unfold STRGStringTable.from_packed
  rw [if_neg hnotneg, if_neg hlen, hcnt, hdecomp]
  rw [readU32List?_spec t.offsets _ h5]
  dsimp only
  have hoff : (t.offsets.map Int.toNat)
      = positionsFrom (4 * t.strings.length)
        (t.strings.map (fun s => (utf16beBytes s).length + 2)) := by
    rw [h3, map_toNat_cast]
  have hdrop : ((t.offsets.map u32Bytes).flatten
      ++ (t.strings.map (fun s => utf16beBytes s ++ [0, 0])).flatten).drop
        (4 * t.strings.length)
      = (t.strings.map (fun s => utf16beBytes s ++ [0, 0])).flatten ++ [] := by
    rw [List.append_nil, List.drop_left' ?_]
    rw [offsets_flatten_length]
    omega
  rw [decodeStringsAt_spec _ [] t.offsets t.strings (4 * t.strings.length) h4 hoff hdrop]
  rfl

theorem nameTable_roundtrip (nt : STRGNameTable) (h : WFNameTable nt)
    (rest : List Nat) :
    STRGNameTable.from_packed (nt.packed ++ rest) = some nt := by
  obtain ⟨h1, h2, h3, h4, h5, h6, h7, h8⟩ := h
  have hdec : nt.packed ++ rest
      = u32Bytes nt.count ++ (u32Bytes nt.size
        ++ ((nt.entries.map STRGNameEntry.packed).flatten
          ++ ((nt.names.map (fun nm => nm ++ [0])).flatten ++ rest))) := by
    unfold STRGNameTable.packed
    simp [List.append_assoc]
  unfold STRGNameTable.from_packed
  rw [hdec]
  rw [if_neg ?_]
  · rw [List.take_left' (u32Bytes_length _)]
    have hbn : beNat (u32Bytes nt.count) = nt.entries.length := by
      have hc := beNat_u32Bytes nt.count h2.1 h2.2
      omega
    rw [hbn]
    have hdrop8 : (u32Bytes nt.count ++ (u32Bytes nt.size
        ++ ((nt.entries.map STRGNameEntry.packed).flatten
          ++ ((nt.names.map (fun nm => nm ++ [0])).flatten ++ rest)))).drop 8
        = (nt.entries.map STRGNameEntry.packed).flatten
          ++ ((nt.names.map (fun nm => nm ++ [0])).flatten ++ rest) := by
      rw [show (8 : Nat) = 4 + 4 from rfl, drop_shift _ _ 4 4 (u32Bytes_length _),
        List.drop_left' (u32Bytes_length _)]
    rw [parseNameEntries_spec nt.entries _ 8
      ((nt.names.map (fun nm => nm ++ [0])).flatten ++ rest) h7 hdrop8]
    dsimp only
    have hoff : (nt.entries.map STRGNameEntry.offset).map Int.toNat
        = positionsFrom (8 * nt.entries.length)
          (nt.names.map (fun nm => nm.length + 1)) := by
      rw [h6, map_toNat_cast]
    have hbdrop : (u32Bytes nt.count ++ (u32Bytes nt.size
        ++ ((nt.entries.map STRGNameEntry.packed).flatten
          ++ ((nt.names.map (fun nm => nm ++ [0])).flatten ++ rest)))).drop
            (8 + 8 * nt.entries.length)
        = (nt.names.map (fun nm => nm ++ [0])).flatten ++ rest := by
      rw [← List.drop_drop, hdrop8, List.drop_left' (entries_flatten_length nt.entries)]
    rw [decodeNames_spec _ rest nt.entries nt.names (8 * nt.entries.length) h8 hoff hbdrop]
    dsimp only
    rw [List.drop_left' (u32Bytes_length _), List.take_left' (u32Bytes_length _),
      beNat_u32Bytes _ h5.1 h5.2]
    have hcnt : (beNat (u32Bytes nt.count) : Int) = nt.count :=
      beNat_u32Bytes nt.count h2.1 h2.2
    rw [hbn] at hcnt
    rw [show ((nt.entries.length : Nat) : Int) = nt.count from hcnt]
  · simp only [List.length_append, u32Bytes_length, not_lt]
    omega

theorem decodeStringTables_spec (buf : List Nat) (cnt : Int) (base : Nat) :
    ∀ (lts : List STRGLanguageTable) (sts : List STRGStringTable) (d : Nat)
      (rest : List Nat),
    (∀ st ∈ sts, WFStringTable st ∧ st.count = cnt) →
    (lts.map STRGLanguageTable.strings_offset).map Int.toNat
      = positionsFrom d (sts.map STRGStringTable.packed_size) →
    lts.map STRGLanguageTable.strings_size
      = sts.map (fun st => (st.packed_size : Int)) →
    buf.drop (base + d) = (sts.map STRGStringTable.packed).flatten ++ rest →
    decodeStringTables buf base cnt lts = some sts := by
  intro lts
  induction lts with
  | nil =>
    intro sts d rest hwf hoff hsz hbuf
    cases sts with
    | nil => rfl
    | cons st sts => simp at hsz
  | cons lt lts ih =>
    intro sts d rest hwf hoff hsz hbuf
    cases sts with
    | nil => simp at hsz
    | cons st sts =>
      simp only [List.map_cons, positionsFrom] at hoff hsz
      injection hoff with ho1 ho2
      injection hsz with hs1 hs2
      have hst := hwf st (List.mem_cons_self _ _)
      have hsplit : buf.drop (base + d)
          = st.packed ++ ((sts.map STRGStringTable.packed).flatten ++ rest) := by
        rw [hbuf]
        simp [List.flatten_cons, List.append_assoc]
      unfold decodeStringTables
      have hszn : lt.strings_size.toNat = st.packed.length := by
        have he : st.packed_size = st.packed.length := rfl
        omega
      have hslice : (buf.drop (base + lt.strings_offset.toNat)).take lt.strings_size.toNat
          = st.packed := by
        rw [ho1, hsplit, hszn, List.take_left]
      rw [hslice]
      have hfp : STRGStringTable.from_packed st.packed cnt = some st := by
        rw [← hst.2]
        exact stringTable_roundtrip st hst.1
      rw [hfp]
      rw [ih sts (d + st.packed_size) rest
        (fun x hx => hwf x (List.mem_cons_of_mem _ hx)) ho2 hs2 ?_]
      · rw [show base + (d + st.packed_size) = (base + d) + st.packed.length from by
          have he : st.packed_size = st.packed.length := rfl
          omega, ← List.drop_drop, hsplit, List.drop_left]

/-- Decoding the encoding of a well-formed STRG returns it unchanged. -/
theorem strg_roundtrip (s : STRG) (h : WFSTRG s) :
    STRG.from_packed s.packed = some s := by
  obtain ⟨hm, hv, hlc, hlcr, hscr, hlen, hnt, hlts, hsts, hoff, hsz⟩ := h
  have hdec : s.packed
      = u32Bytes s.magic_number ++ (u32Bytes s.version ++ (u32Bytes s.language_count
        ++ (u32Bytes s.string_count
          ++ ((s.language_tables.map STRGLanguageTable.packed).flatten
            ++ (s.name_table.packed
              ++ ((s.string_tables.map STRGStringTable.packed).flatten
                ++ List.replicate s.packed_padding_size 255)))))) := by
    unfold STRG.packed
    simp [List.append_assoc]
  have hAlen : ((s.language_tables.map STRGLanguageTable.packed).flatten).length
      = 12 * s.language_tables.length := by
    rw [List.length_flatten, List.map_map]
    have h1 : s.language_tables.map (List.length ∘ STRGLanguageTable.packed)
        = s.language_tables.map (fun _ => 12) :=
      List.map_congr_left (fun t ht => languageTable_packed_length t (hlts t ht).1)
    rw [h1, sum_map_const]
  have e0 : s.packed.take 4 = u32Bytes s.magic_number := by
    rw [hdec]
    exact List.take_left' (u32Bytes_length _)
  have e4 : s.packed.drop 4 = u32Bytes s.version ++ (u32Bytes s.language_count
      ++ (u32Bytes s.string_count
        ++ ((s.language_tables.map STRGLanguageTable.packed).flatten
          ++ (s.name_table.packed
            ++ ((s.string_tables.map STRGStringTable.packed).flatten
              ++ List.replicate s.packed_padding_size 255))))) := by
    rw [hdec]
    exact List.drop_left' (u32Bytes_length _)
  have e8 : s.packed.drop 8 = u32Bytes s.language_count
      ++ (u32Bytes s.string_count
        ++ ((s.language_tables.map STRGLanguageTable.packed).flatten
          ++ (s.name_table.packed
            ++ ((s.string_tables.map STRGStringTable.packed).flatten
              ++ List.replicate s.packed_padding_size 255)))) := by
    rw [hdec, show (8 : Nat) = 4 + 4 from rfl, drop_shift _ _ 4 4 (u32Bytes_length _)]
    exact List.drop_left' (u32Bytes_length _)
  have e12 : s.packed.drop 12 = u32Bytes s.string_count
      ++ ((s.language_tables.map STRGLanguageTable.packed).flatten
        ++ (s.name_table.packed
          ++ ((s.string_tables.map STRGStringTable.packed).flatten
            ++ List.replicate s.packed_padding_size 255))) := by
    rw [hdec, show (12 : Nat) = 4 + 8 from rfl, drop_shift _ _ 4 8 (u32Bytes_length _),
      show (8 : Nat) = 4 + 4 from rfl, drop_shift _ _ 4 4 (u32Bytes_length _)]
    exact List.drop_left' (u32Bytes_length _)
  have e16 : s.packed.drop 16 = (s.language_tables.map STRGLanguageTable.packed).flatten
      ++ (s.name_table.packed
        ++ ((s.string_tables.map STRGStringTable.packed).flatten
          ++ List.replicate s.packed_padding_size 255)) := by
    rw [hdec, show (16 : Nat) = 4 + 12 from rfl, drop_shift _ _ 4 12 (u32Bytes_length _),
      show (12 : Nat) = 4 + 8 from rfl, drop_shift _ _ 4 8 (u32Bytes_length _),
      show (8 : Nat) = 4 + 4 from rfl, drop_shift _ _ 4 4 (u32Bytes_length _)]
    exact List.drop_left' (u32Bytes_length _)
  have hbnL : beNat (u32Bytes s.language_count) = s.language_tables.length := by
    have hc := beNat_u32Bytes s.language_count hlcr.1 hlcr.2
    omega
  have hbig : ¬ s.packed.length < 16 := by
    rw [hdec]
    simp only [List.length_append, u32Bytes_length, not_lt]
    omega
  have hB8 : 8 ≤ s.name_table.packed.length := by
    unfold STRGNameTable.packed
    simp only [List.length_append, u32Bytes_length]
    omega
  have hsizeNat : s.name_table.size.toNat = s.name_table.packed.length - 8 := by
    have h4 := hnt.2.2.2.1
    omega
  have hdnt : s.packed.drop (16 + 12 * s.language_tables.length)
      = s.name_table.packed
        ++ ((s.string_tables.map STRGStringTable.packed).flatten
          ++ List.replicate s.packed_padding_size 255) := by
    rw [← List.drop_drop, e16, List.drop_left' hAlen]
  have hdst : s.packed.drop
      (16 + 12 * s.language_tables.length + 8 + s.name_table.size.toNat + 0)
      = (s.string_tables.map STRGStringTable.packed).flatten
        ++ List.replicate s.packed_padding_size 255 := by
    rw [show 16 + 12 * s.language_tables.length + 8 + s.name_table.size.toNat + 0
        = (16 + 12 * s.language_tables.length) + s.name_table.packed.length from by omega,
      ← List.drop_drop, hdnt, List.drop_left]
  have hoffs : (s.language_tables.map STRGLanguageTable.strings_offset).map Int.toNat
      = positionsFrom 0 (s.string_tables.map STRGStringTable.packed_size) := by
    rw [hoff, map_toNat_cast]
  unfold STRG.from_packed
  rw [if_neg hbig, e8, List.take_left' (u32Bytes_length _), hbnL]
  rw [parseLanguageTables_spec s.language_tables s.packed 16
    (s.name_table.packed ++ ((s.string_tables.map STRGStringTable.packed).flatten
      ++ List.replicate s.packed_padding_size 255)) hlts e16]
  dsimp only
  rw [hdnt, nameTable_roundtrip s.name_table hnt _]
  dsimp only
  rw [e12, List.take_left' (u32Bytes_length _), beNat_u32Bytes _ hscr.1 hscr.2]
  rw [decodeStringTables_spec s.packed s.string_count
    (16 + 12 * s.language_tables.length + 8 + s.name_table.size.toNat)
    s.language_tables s.string_tables 0 (List.replicate s.packed_padding_size 255)
    (fun st hst => (hsts st hst)) hoffs hsz hdst]
  dsimp only [Option.map_some']
  rw [e0, e4, List.take_left' (u32Bytes_length _),
    beNat_u32Bytes _ hm.1 hm.2, beNat_u32Bytes _ hv.1 hv.2]
  rw [show ((s.language_tables.length : Nat) : Int) = s.language_count from hlc.symm]

theorem decodeResources_spec (buf : List Nat) :
    ∀ (ts : List ResourceTable) (rs : List Resource) (d : Nat) (rest : List Nat),
    (∀ pr ∈ ts.zip rs, dispatchOK pr.1 pr.2) →
    (ts.map ResourceTable.offset).map Int.toNat
      = positionsFrom d (rs.map (fun r => align32 r.packed.length)) →
    ts.map ResourceTable.size = rs.map (fun r => (r.packed.length : Int)) →
    buf.drop d = (rs.map (fun r => aligned_to_32_bytes r.packed)).flatten ++ rest →
    decodeResources buf ts = some rs := by
  intro ts
  induction ts with
  | nil =>
    intro rs d rest hdisp hoff hsz hbuf
    cases rs with
    | nil => rfl
    | cons r rs => simp at hsz
  | cons t ts ih =>
    intro rs d rest hdisp hoff hsz hbuf
    cases rs with
    | nil => simp at hsz
    | cons r rs =>
      simp only [List.map_cons, positionsFrom] at hoff hsz
      injection hoff with ho1 ho2
      injection hsz with hs1 hs2
      have hsplit : buf.drop d
          = aligned_to_32_bytes r.packed
            ++ ((rs.map (fun r => aligned_to_32_bytes r.packed)).flatten ++ rest) := by
        rw [hbuf]
        simp [List.flatten_cons, List.append_assoc]
      have hsplit2 : buf.drop d
          = r.packed ++ (List.replicate (pad32 r.packed.length) 255
            ++ ((rs.map (fun r => aligned_to_32_bytes r.packed)).flatten ++ rest)) := by
        rw [hsplit]
        unfold aligned_to_32_bytes
        simp [List.append_assoc]
      unfold decodeResources
      have hszn : t.size.toNat = r.packed.length := by omega
      have hslice : (buf.drop t.offset.toNat).take t.size.toNat = r.packed := by
        rw [ho1, hsplit2, hszn, List.take_left]
      rw [hslice]
      have hd := hdisp (t, r) (by rw [List.zip_cons_cons]; exact List.mem_cons_self _ _)
      have hdr : decodeResource (assetClassFor t) r.packed = some r := by
        cases r with
        | strg s0 =>
          obtain ⟨hcls, hwf⟩ := hd
          rw [hcls]
          unfold decodeResource
          show (STRG.from_packed s0.packed).map Resource.strg = some (Resource.strg s0)
          rw [strg_roundtrip s0 hwf]
          rfl
        | foreignAsset c dta => exact hd.elim
        | unimplemented u =>
          have hcls : assetClassFor t = AssetClass.unimplemented := hd
          rw [hcls]
          rfl
      rw [hdr]
      rw [ih rs (d + align32 r.packed.length) rest
        (fun pr hpr => hdisp pr (by rw [List.zip_cons_cons]; exact List.mem_cons_of_mem _ hpr))
        ho2 hs2 ?_]
      · rw [← List.drop_drop, hsplit, List.drop_left' (aligned_to_32_bytes_length r.packed)]

/-- Decoding the encoding of a well-formed PAK returns it unchanged. -/
theorem pak_roundtrip (p : PAK) (h : WFPAK p) :
    PAK.from_packed p.packed = some p := by
  obtain ⟨hmj, hmn, hun, hnc, hncr, hrc, hrcr, hlen, hnamed, hrt, hszs, hoffs, hdisp⟩ := h
  have hdec : p.packed
      = u16Bytes p.major_version ++ (u16Bytes p.minor_version ++ (u32Bytes p.unused
        ++ (u32Bytes p.named_resource_count
          ++ ((p.named_resource_tables.map NamedResourceTable.packed).flatten
            ++ (u32Bytes p.resource_count
              ++ ((p.resource_tables.map ResourceTable.packed).flatten
                ++ (List.replicate p.packed_padding_before_resources_size 0
                  ++ (p.resources.map
                      (fun r => aligned_to_32_bytes r.packed)).flatten))))))) := by
    unfold PAK.packed
    simp [List.append_assoc]
  have hNlen : ((p.named_resource_tables.map NamedResourceTable.packed).flatten).length
      = (p.named_resource_tables.map (fun t => t.packed.length)).sum :=
    map_length_packed NamedResourceTable.packed (fun t => t.packed.length)
      (fun t => rfl) p.named_resource_tables
  have hTlen : ((p.resource_tables.map ResourceTable.packed).flatten).length
      = 20 * p.resource_tables.length := by
    rw [List.length_flatten, List.map_map]
    have h1 : p.resource_tables.map (List.length ∘ ResourceTable.packed)
        = p.resource_tables.map (fun _ => 20) :=
      List.map_congr_left (fun t ht => resourceTable_packed_length t (hrt t ht).1)
    rw [h1, sum_map_const]
  have e0 : p.packed.take 2 = u16Bytes p.major_version := by
    rw [hdec]
    exact List.take_left' (u16Bytes_length _)
  have e2 : p.packed.drop 2 = u16Bytes p.minor_version ++ (u32Bytes p.unused
      ++ (u32Bytes p.named_resource_count
        ++ ((p.named_resource_tables.map NamedResourceTable.packed).flatten
          ++ (u32Bytes p.resource_count
            ++ ((p.resource_tables.map ResourceTable.packed).flatten
              ++ (List.replicate p.packed_padding_before_resources_size 0
                ++ (p.resources.map
                    (fun r => aligned_to_32_bytes r.packed)).flatten)))))) := by
    rw [hdec]
    exact List.drop_left' (u16Bytes_length _)
  have e4 : p.packed.drop 4 = u32Bytes p.unused
      ++ (u32Bytes p.named_resource_count
        ++ ((p.named_resource_tables.map NamedResourceTable.packed).flatten
          ++ (u32Bytes p.resource_count
            ++ ((p.resource_tables.map ResourceTable.packed).flatten
              ++ (List.replicate p.packed_padding_before_resources_size 0
                ++ (p.resources.map
                    (fun r => aligned_to_32_bytes r.packed)).flatten))))) := by
    rw [hdec, show (4 : Nat) = 2 + 2 from rfl, drop_shift _ _ 2 2 (u16Bytes_length _)]
    exact List.drop_left' (u16Bytes_length _)
  have e8 : p.packed.drop 8 = u32Bytes p.named_resource_count
      ++ ((p.named_resource_tables.map NamedResourceTable.packed).flatten
        ++ (u32Bytes p.resource_count
          ++ ((p.resource_tables.map ResourceTable.packed).flatten
            ++ (List.replicate p.packed_padding_before_resources_size 0
              ++ (p.resources.map
                  (fun r => aligned_to_32_bytes r.packed)).flatten)))) := by
    rw [hdec, show (8 : Nat) = 2 + 6 from rfl, drop_shift _ _ 2 6 (u16Bytes_length _),
      show (6 : Nat) = 2 + 4 from rfl, drop_shift _ _ 2 4 (u16Bytes_length _)]
    exact List.drop_left' (u32Bytes_length _)
  have e12 : p.packed.drop 12
      = (p.named_resource_tables.map NamedResourceTable.packed).flatten
        ++ (u32Bytes p.resource_count
          ++ ((p.resource_tables.map ResourceTable.packed).flatten
            ++ (List.replicate p.packed_padding_before_resources_size 0
              ++ (p.resources.map
                  (fun r => aligned_to_32_bytes r.packed)).flatten))) := by
    rw [hdec, show (12 : Nat) = 2 + 10 from rfl, drop_shift _ _ 2 10 (u16Bytes_length _),
      show (10 : Nat) = 2 + 8 from rfl, drop_shift _ _ 2 8 (u16Bytes_length _),
      show (8 : Nat) = 4 + 4 from rfl, drop_shift _ _ 4 4 (u32Bytes_length _)]
    exact List.drop_left' (u32Bytes_length _)
  have hbnN : beNat (u32Bytes p.named_resource_count)
      = p.named_resource_tables.length := by
    have hc := beNat_u32Bytes p.named_resource_count hncr.1 hncr.2
    omega
  have hbig : ¬ p.packed.length < 12 := by
    rw [hdec]
    simp only [List.length_append, u16Bytes_length, u32Bytes_length, not_lt]
    omega
  have hdP0 : p.packed.drop (12 + (p.named_resource_tables.map
      (fun t => t.packed.length)).sum)
      = u32Bytes p.resource_count
        ++ ((p.resource_tables.map ResourceTable.packed).flatten
          ++ (List.replicate p.packed_padding_before_resources_size 0
            ++ (p.resources.map (fun r => aligned_to_32_bytes r.packed)).flatten)) := by
    rw [← List.drop_drop, e12, List.drop_left' hNlen]
  have hdP1 : p.packed.drop (12 + (p.named_resource_tables.map
      (fun t => t.packed.length)).sum + 4)
      = (p.resource_tables.map ResourceTable.packed).flatten
        ++ (List.replicate p.packed_padding_before_resources_size 0
          ++ (p.resources.map (fun r => aligned_to_32_bytes r.packed)).flatten) := by
    rw [← List.drop_drop, hdP0, List.drop_left' (u32Bytes_length _)]
  have hcount : p.resource_count.toNat = p.resource_tables.length := by omega
  have hdres : p.packed.drop (p.packed_content_before_resources_size
      + p.packed_padding_before_resources_size)
      = (p.resources.map (fun r => aligned_to_32_bytes r.packed)).flatten ++ [] := by
    rw [List.append_nil, ← List.drop_drop, PAK.packed_eq,
      List.drop_left' (PAK.headerBytes_length p),
      List.drop_left' (List.length_replicate _ _)]
  have hoffs2 : (p.resource_tables.map ResourceTable.offset).map Int.toNat
      = positionsFrom (p.packed_content_before_resources_size
          + p.packed_padding_before_resources_size)
        (p.resources.map (fun r => align32 r.packed.length)) := by
    rw [hoffs, map_toNat_cast]
    congr 1
    exact List.map_congr_left (fun r _ => by rw [resource_packed_size_eq])
  have hszs2 : p.resource_tables.map ResourceTable.size
      = p.resources.map (fun r => (r.packed.length : Int)) := by
    rw [hszs]
    exact List.map_congr_left (fun r _ => by rw [resource_packed_size_eq])
  unfold PAK.from_packed
  rw [if_neg hbig, e8, List.take_left' (u32Bytes_length _), hbnN]
  rw [parseNamedTables_spec p.named_resource_tables p.packed 12
    (u32Bytes p.resource_count
      ++ ((p.resource_tables.map ResourceTable.packed).flatten
        ++ (List.replicate p.packed_padding_before_resources_size 0
          ++ (p.resources.map (fun r => aligned_to_32_bytes r.packed)).flatten)))
    hnamed e12]
  dsimp only
  rw [hdP0, readU32?_append _ _ hrcr.1 hrcr.2]
  dsimp only
  rw [hcount]
  rw [parseResourceTables_spec p.resource_tables p.packed
    (12 + (p.named_resource_tables.map (fun t => t.packed.length)).sum + 4)
    (List.replicate p.packed_padding_before_resources_size 0
      ++ (p.resources.map (fun r => aligned_to_32_bytes r.packed)).flatten)
    hrt hdP1]
  dsimp only
  rw [decodeResources_spec p.packed p.resource_tables p.resources
    (p.packed_content_before_resources_size + p.packed_padding_before_resources_size)
    [] hdisp hoffs2 hszs2 hdres]
  dsimp only [Option.map_some']
  rw [e0, e2, List.take_left' (u16Bytes_length _), e4,
    List.take_left' (u32Bytes_length _),
    beNat_u16Bytes _ hmj.1 hmj.2, beNat_u16Bytes _ hmn.1 hmn.2,
    beNat_u32Bytes _ hun.1 hun.2]
  rw [show ((p.named_resource_tables.length : Nat) : Int)
    = p.named_resource_count from hnc.symm]

/-- C4: a buffer produced by the codec's own encoder from a well-formed value
decodes back to exactly that value, so re-encoding the decoded value
reproduces the buffer byte for byte, for PAK and for STRG. -/
theorem encode_decode_roundtrip :
    (∀ p : PAK, WFPAK p → PAK.from_packed p.packed = some p
      ∧ ∀ q, PAK.from_packed p.packed = some q → q.packed = p.packed) ∧
    (∀ s : STRG, WFSTRG s → STRG.from_packed s.packed = some s
      ∧ ∀ q, STRG.from_packed s.packed = some q → q.packed = s.packed) := by
  constructor
  · intro p hp
    have h1 := pak_roundtrip p hp
    refine ⟨h1, fun q hq => ?_⟩
    rw [h1] at hq
    rw [← Option.some.inj hq]
  · intro s hs
    have h1 := strg_roundtrip s hs
    refine ⟨h1, fun q hq => ?_⟩
    rw [h1] at hq
    rw [← Option.some.inj hq]

/-- Witness for C4 at concrete values: the 160-byte encoding of `pakSTRG`
(one named entry, one STRG resource with two languages and a name table)
decodes back to `pakSTRG`, and the 96-byte encoding of `strgTwoLang` decodes
back to `strgTwoLang`. -/
theorem encode_decode_roundtrip_witness :
    PAK.from_packed pakSTRG.packed = some pakSTRG ∧
    STRG.from_packed strgTwoLang.packed = some strgTwoLang :=
  ⟨(encode_decode_roundtrip.1 pakSTRG (by decide)).1,
   (encode_decode_roundtrip.2 strgTwoLang (by decide)).1⟩
